import Mathlib

/-!
Verification of the per-guild playback engine of a Discord music bot.

The definitions below are a shallow embedding of the first variant in
src/unnamed/part_002 (the guild-state engine with loop modes, one-shot
restart, volume, remove) and, for the playlist helper, also of the variant
in src/index.js.  The JavaScript engine is event driven: each handler runs
synchronously up to its first await; resolution of a track (yt-dlp calls)
and probing of the spawned ffmpeg stream (demuxProbe) are suspension
points.  We model each synchronous segment as an atomic step, an in-flight
startPlayback as an explicit Pending value, and the outcome of each await
as a boolean oracle consulted once per suspension.
-/

namespace MusicBot

/-- Loop mode of a guild state: the loopMode field, one of off, track, queue. -/
inductive LoopMode
  | off
  | track
  | queue
deriving DecidableEq, Repr

/-- Payload of one track request, as pushed by the play and playlist handlers. -/
structure QueueItem where
  title : String
  source : String
  requestedBy : String
  voiceChannelId : String
  textChannelId : String
deriving DecidableEq, Repr

/-- A queue entry as a JavaScript heap object: the payload plus an allocation
identity.  Every object literal in the source (the pushes in the play and
playlist handlers, and the spread copy in the loop-queue branch of
handlePlayerIdle) allocates a fresh object, which we model with a fresh uid
drawn from a counter in the engine state. -/
structure Item where
  payload : QueueItem
  uid : Nat
deriving DecidableEq, Repr

/-- Which caller awaited startPlayback: playNext or playSame.  The stored
channel id is the textChannelId argument of that caller, used by its catch
block to continue with playNext. -/
inductive PlayCtx
  | viaNext (textChannelId : String)
  | viaSame (textChannelId : String)
deriving DecidableEq, Repr

/-- An in-flight startPlayback call.  resolving: before the ffmpeg spawn
(awaiting resolveFirstVideoUrl / getDirectAudioUrlAndHeaders); probing:
the subprocess is spawned and recorded in currentPipe, awaiting demuxProbe. -/
inductive Pending
  | idle
  | resolving (item : Item) (ctx : PlayCtx)
  | probing (item : Item) (ctx : PlayCtx) (pipeId : Nat)
deriving DecidableEq, Repr

/-- Observable events of the engine: startPlayback attempts and the user
visible notifications sent by the handlers. -/
inductive Ev
  | attempt (uid : Nat)
  | reconnecting (title : String)
  | nowPlaying (title : String)
  | restarted (title : String)
  | skippedBroken (title : String)
  | queueEmpty
deriving DecidableEq, Repr

/-- The uid of an attempt event, for counting play attempts of a track. -/
def attemptUid : Ev → Option Nat
  | .attempt u => some u
  | _ => none

/-- One guild playback state, mirroring the object built by createGuildState
in src/unnamed/part_002.  alive is the set of spawned and not yet killed
ffmpeg subprocesses (their pipe ids); nextPipeId and nextUid are allocation
counters; pending is the in-flight startPlayback, if any; playing mirrors
the audio player being in the Playing status; vcConnected mirrors an
existing voice connection; currentResource holds the argument last passed
to setVolumeLogarithmic (times 100), if a resource exists. -/
structure EngineState where
  queue : List Item
  current : Option Item
  currentPipe : Option Nat
  restartTried : Bool
  currentResource : Option Int
  volumePct : Int
  loopMode : LoopMode
  skipRequested : Bool
  pending : Pending
  vcConnected : Bool
  playing : Bool
  alive : List Nat
  nextPipeId : Nat
  nextUid : Nat
deriving DecidableEq, Repr

/-- cleanupCurrentPipeline: destroy the stream and kill the subprocess of the
current pipe, then null the reference.  Idempotent: the early return on a
null reference coincides with the update below, since nothing is erased
and the reference is already null. -/
def cleanupCurrentPipeline (s : EngineState) : EngineState :=
  { s with
    alive := match s.currentPipe with
             | none => s.alive
             | some p => s.alive.erase p,
    currentPipe := none }

/-- Synchronous prefix of startPlayback: ensureVC joins the voice channel,
then the function suspends on resolveFirstVideoUrl.  Emits an attempt event
for the item. -/
def startPlayback (item : Item) (ctx : PlayCtx) (s : EngineState) :
    EngineState × List Ev :=
  ({ s with vcConnected := true, pending := .resolving item ctx },
   [.attempt item.uid])

/-- Synchronous prefix of playNext: reset the restart guard, clean the
pipeline; if the queue is empty settle idle (clear current, destroy the
voice connection, announce the empty queue), else shift the head into
current and begin startPlayback for it. -/
def playNextBegin (textChannelId : String) (s0 : EngineState) :
    EngineState × List Ev :=
  let s := cleanupCurrentPipeline { s0 with restartTried := false }
  match s.queue with
  | [] =>
      ({ s with current := none, vcConnected := false }, [.queueEmpty])
  | next :: rest =>
      startPlayback next (.viaNext textChannelId)
        { s with queue := rest, current := some next }

/-- Synchronous prefix of playSame: set current to the item, clean the
pipeline, and begin startPlayback for the same item. -/
def playSameBegin (textChannelId : String) (item : Item) (s0 : EngineState) :
    EngineState × List Ev :=
  startPlayback item (.viaSame textChannelId)
    (cleanupCurrentPipeline { s0 with current := some item })

/-- Catch block shared by playNext and playSame around startPlayback: the
playNext catch additionally announces the broken track; both null current
and continue with the synchronous prefix of playNext on the original
textChannelId argument. -/
def loadFail (item : Item) (ctx : PlayCtx) (s : EngineState) :
    EngineState × List Ev :=
  match ctx with
  | .viaNext tc =>
      let s1 := { s with current := none, pending := .idle }
      let p := playNextBegin tc s1
      (p.1, .skippedBroken item.payload.title :: p.2)
  | .viaSame tc =>
      let s1 := { s with current := none, pending := .idle }
      playNextBegin tc s1

/-- One resumption of the in-flight startPlayback, with b the outcome of the
pending await.  From resolving, success spawns the ffmpeg subprocess and
records it in currentPipe, then suspends on demuxProbe; from probing,
success creates the audio resource with inline volume, applies the stored
volume logarithmically, and starts the player.  Failure at either stage
runs the catch block of the awaiting caller. -/
def stepLoad (b : Bool) (s : EngineState) : EngineState × List Ev :=
  match s.pending with
  | .idle => (s, [])
  | .resolving item ctx =>
      if b then
        ({ s with currentPipe := some s.nextPipeId,
                  alive := s.nextPipeId :: s.alive,
                  nextPipeId := s.nextPipeId + 1,
                  pending := .probing item ctx s.nextPipeId }, [])
      else loadFail item ctx s
  | .probing item ctx _ =>
      if b then
        match ctx with
        | .viaNext _ =>
            ({ s with currentResource := some (max s.volumePct 0),
                      playing := true, pending := .idle },
             [.nowPlaying item.payload.title])
        | .viaSame _ =>
            ({ s with currentResource := some (max s.volumePct 0),
                      playing := true, pending := .idle },
             [.restarted item.payload.title])
      else loadFail item ctx s

/-- Rank of a pending load, used for the termination measure of the driver. -/
def pendingRank : Pending → Nat
  | .idle => 0
  | .resolving _ _ => 2
  | .probing _ _ _ => 1

/-- Termination measure of the load driver: each resumption either makes
stage progress or consumes one queue item. -/
def loadMeasure (s : EngineState) : Nat :=
  2 * s.queue.length + pendingRank s.pending

/-- Fueled driver: resume the in-flight load until the engine is quiescent,
consuming one oracle value per suspension. -/
def runPendingFuel : Nat → (Nat → Bool) → EngineState → EngineState × List Ev
  | 0, _, s => (s, [])
  | fuel + 1, oracle, s =>
      if s.pending = .idle then (s, [])
      else
        let p := stepLoad (oracle 0) s
        let q := runPendingFuel fuel (fun n => oracle (n + 1)) p.1
        (q.1, p.2 ++ q.2)

/-- Driver with sufficient fuel: loadMeasure strictly decreases at each
resumption, so loadMeasure s steps always reach quiescence. -/
def runPending (oracle : Nat → Bool) (s : EngineState) : EngineState × List Ev :=
  runPendingFuel (loadMeasure s) oracle s

/-- playNext run to completion: synchronous prefix, then resume the load
until quiescent. -/
def playNext (oracle : Nat → Bool) (textChannelId : String)
    (s : EngineState) : EngineState × List Ev :=
  let p := playNextBegin textChannelId s
  let q := runPending oracle p.1
  (q.1, p.2 ++ q.2)

/-- playSame run to completion. -/
def playSame (oracle : Nat → Bool) (textChannelId : String) (item : Item)
    (s : EngineState) : EngineState × List Ev :=
  let p := playSameBegin textChannelId item s
  let q := runPending oracle p.1
  (q.1, p.2 ++ q.2)

/-- handlePlayerIdle: on the Idle event of the sink, clean the pipeline and
the resource; return early if nothing was current; otherwise read and reset
skipRequested, then apply loop policy: loop-track without a manual skip
replays the same item (resetting the restart guard); loop-queue pushes a
copy of the finished item to the back of the queue; in all remaining cases
advance with playNext. -/
def handlePlayerIdle (oracle : Nat → Bool) (s0 : EngineState) :
    EngineState × List Ev :=
  let s1 := cleanupCurrentPipeline { s0 with playing := false }
  let s2 := { s1 with currentResource := none }
  match s2.current with
  | none => (s2, [])
  | some finished =>
      let manualSkip := s2.skipRequested
      let s3 := { s2 with skipRequested := false }
      if s3.loopMode = .track ∧ manualSkip = false then
        let s4 := { s3 with restartTried := false }
        playSame oracle finished.payload.textChannelId finished s4
      else
        let s4 :=
          if s3.loopMode = .queue then
            { s3 with queue := s3.queue ++ [⟨finished.payload, s3.nextUid⟩],
                      nextUid := s3.nextUid + 1 }
          else s3
        let s5 := { s4 with current := none }
        playNext oracle finished.payload.textChannelId s5

/-- handlePlayerError: on a sink error with a current track, attempt a
one-time restart (set the guard, notify listeners, replay the same item);
if the guard was already set, abandon the item and advance with playNext. -/
def handlePlayerError (oracle : Nat → Bool) (s0 : EngineState) :
    EngineState × List Ev :=
  let s := { s0 with playing := false }
  match s.current with
  | none => (s, [])
  | some cur =>
      if s.restartTried = false then
        let s1 := { s with restartTried := true }
        let p := playSame oracle cur.payload.textChannelId cur s1
        (p.1, .reconnecting cur.payload.title :: p.2)
      else
        playNext oracle cur.payload.textChannelId s

/-- Body of the skip command handler: latch skipRequested, stop the player
(the Idle event it triggers when something was playing is delivered
separately), and tear down the pipeline directly. -/
def skipCmd (s0 : EngineState) : EngineState :=
  cleanupCurrentPipeline { s0 with skipRequested := true, playing := false }

/-- Body of the stop command handler: clear the queue and current, reset the
loop mode and the skip latch, stop the player, tear down the pipeline, and
destroy the voice connection. -/
def stopCmd (s0 : EngineState) : EngineState :=
  let s := { s0 with queue := [], current := none, loopMode := .off,
                     skipRequested := false, playing := false }
  { cleanupCurrentPipeline s with vcConnected := false }

/-- Body of the play command handler: push a freshly allocated item, then
start playback if nothing is current. -/
def playCmd (oracle : Nat → Bool)
    (title source requestedBy voiceChannelId textChannelId : String)
    (s0 : EngineState) : EngineState × List Ev :=
  let item : Item :=
    ⟨⟨title, source, requestedBy, voiceChannelId, textChannelId⟩, s0.nextUid⟩
  let s := { s0 with queue := s0.queue ++ [item], nextUid := s0.nextUid + 1 }
  if s.current = none then playNext oracle textChannelId s else (s, [])

/-- One push of the playlist handler loop: a freshly allocated item whose
title and source come from the fetched entry. -/
def pushEntry (requestedBy voiceChannelId textChannelId : String)
    (s : EngineState) (e : String × String) : EngineState :=
  { s with
    queue := s.queue ++
      [⟨⟨e.1, e.2, requestedBy, voiceChannelId, textChannelId⟩, s.nextUid⟩],
    nextUid := s.nextUid + 1 }

/-- Body of the playlist command handler: if the fetched entry list is empty
reply with an error and change nothing; otherwise push one freshly
allocated item per entry, then start playback if nothing is current. -/
def playlistCmd (oracle : Nat → Bool) (entries : List (String × String))
    (requestedBy voiceChannelId textChannelId : String)
    (s0 : EngineState) : EngineState × List Ev :=
  if entries = [] then (s0, [])
  else
    let s := entries.foldl (pushEntry requestedBy voiceChannelId textChannelId) s0
    if s.current = none then playNext oracle textChannelId s else (s, [])

/-- Reply of the remove command handler. -/
inductive RemoveReply
  | emptyQueue
  | invalidIndex
  | removed (title : String)
deriving DecidableEq, Repr

/-- Body of the remove command handler: an empty queue yields the
informational empty-queue reply; a 1-based index outside the queue bounds
is rejected as invalid; otherwise splice out that entry. -/
def removeCmd (s : EngineState) (index : Int) : EngineState × RemoveReply :=
  if s.queue.length = 0 then (s, .emptyQueue)
  else if index < 1 ∨ (s.queue.length : Int) < index then (s, .invalidIndex)
  else
    let i := (index - 1).toNat
    let title := match s.queue.get? i with
      | some it => it.payload.title
      | none => ""
    ({ s with queue := s.queue.eraseIdx i }, .removed title)

/-- applyVolume: if a resource exists, apply the stored volume percentage
logarithmically (setVolumeLogarithmic with max of the percentage and 0,
divided by 100; we record the numerator). -/
def applyVolume (s : EngineState) : EngineState :=
  match s.currentResource with
  | none => s
  | some _ => { s with currentResource := some (max s.volumePct 0) }

/-- setVolumePct: clamp the percentage into the range 0 to 1000, store it,
and apply it to the live resource if any. -/
def setVolumePct (s : EngineState) (pct : Int) : EngineState :=
  let pct := if pct < 0 then 0 else pct
  let pct := if pct > 1000 then 1000 else pct
  applyVolume { s with volumePct := pct }

/-!
Playlist helper (resolveBatch).  fetchPlaylistEntries exists in two
variants: the one in src/unnamed/part_002 clamps the limit, breaks the URL
branch loop at the clamp, and slices the final list; the one in
src/index.js clamps only the count requested from the search and returns
whatever the URL branch produced, unsliced.  The external yt-dlp call is
modelled by its result: none when it throws, otherwise the raw entry list.
String options model fields that may be missing (none) and the JavaScript
falsiness of the empty string.
-/

/-- One raw entry as returned by yt-dlp for a playlist or search. -/
structure RawEntry where
  webpage_url : Option String
  url : Option String
  vid : Option String
  title : Option String
deriving DecidableEq, Repr

/-- JavaScript or-else over possibly missing strings: the empty string is
falsy and falls through. -/
def jsOr (a b : Option String) : Option String :=
  match a with
  | some s => if s = "" then b else some s
  | none => b

/-- JavaScript or-else with a string default. -/
def jsOrS (a : Option String) (d : String) : String :=
  match a with
  | some s => if s = "" then d else s
  | none => d

/-- The watch URL built from the id field when present and truthy. -/
def idUrl (e : RawEntry) : Option String :=
  match e.vid with
  | some i => if i = "" then none else some ("https://www.youtube.com/watch?v=" ++ i)
  | none => none

/-- The url chosen for an entry: webpage_url, else url, else the watch URL
from the id. -/
def entryUrl (e : RawEntry) : Option String :=
  jsOr e.webpage_url (jsOr e.url (idUrl e))

/-- The title chosen for an entry: title, else id, else unknown. -/
def entryTitle (e : RawEntry) : String :=
  jsOrS e.title (jsOrS e.vid "unknown")

/-- An entry is kept when it has a truthy url. -/
def toEntry (e : RawEntry) : Option (String × String) :=
  match entryUrl e with
  | some u => some (entryTitle e, u)
  | none => none

/-- The limit clamp of part_002: Number(limit) falls back to 25 when the
limit is 0 (falsy), then Math.min(Math.max(l, 1), 50). -/
def clampLimit (limit : Int) : Nat :=
  let l : Int := if limit = 0 then 25 else limit
  (min (max l 1) 50).toNat

/-- The URL-branch loop of part_002: push kept entries, breaking once max
entries are accumulated. -/
def pushLoop (max : Nat) : List RawEntry → List (String × String) → List (String × String)
  | [], acc => acc
  | e :: rest, acc =>
      if max ≤ acc.length then acc
      else
        match toEntry e with
        | some pr => pushLoop max rest (acc ++ [pr])
        | none => pushLoop max rest acc

/-- fetchPlaylistEntries of src/unnamed/part_002: clamp the limit, expand a
URL as a playlist with the loop bounded at the clamp, or keyword-search
(the request itself bounded at the clamp), and slice the result at the
clamp.  A throwing yt-dlp call leaves the list empty. -/
def fetchPlaylistEntries (isUrlInput : Bool)
    (resolved : Option (List RawEntry)) (limit : Int) : List (String × String) :=
  let mx := clampLimit limit
  let entries :=
    match resolved with
    | none => []
    | some arr =>
        if isUrlInput then pushLoop mx arr []
        else arr.filterMap toEntry
  entries.take mx

/-- fetchPlaylistEntries of src/index.js: both branches push every kept
entry; only the search request itself is bounded (ytsearchN with the
clamped n), the URL branch is unbounded and no final slice is applied.
A throwing yt-dlp call leaves the list empty. -/
def fetchPlaylistEntriesV2 (isUrlInput : Bool)
    (resolved : Option (List RawEntry)) (limit : Int) : List (String × String) :=
  let _ := clampLimit limit
  let _ := isUrlInput
  match resolved with
  | none => []
  | some arr => arr.filterMap toEntry

/-!
State invariants of a guild playback state (section 3 of the spec):
a pipeline reference implies a current track, at most one live transcoder
subprocess, and the queue never contains the current item (object
identity, hence uid).  InvP is the generalisation that also holds at the
suspension points of an in-flight load; Inv is the form at quiescence.
-/

/-- The list of live pipes accounted for by a pipe reference. -/
def pipeList : Option Nat → List Nat
  | none => []
  | some p => [p]

/-- Identity discipline of the queue and the current item: the queue never
holds the current object, queue entries are pairwise distinct objects, and
every allocated uid is below the allocation counter. -/
def uidOk (s : EngineState) : Prop :=
  (∀ c ∈ s.current.toList, ∀ it ∈ s.queue, it.uid ≠ c.uid) ∧
  (s.queue.map Item.uid).Nodup ∧
  (∀ it ∈ s.queue, it.uid < s.nextUid) ∧
  (∀ c ∈ s.current.toList, c.uid < s.nextUid)

/-- Consistency of the in-flight load with the current and pipe fields:
when quiescent a pipe implies a current track; while resolving the loading
item is current and no pipe exists yet; while probing the spawned pipe is
the referenced one. -/
def pendingOk : Pending → Option Item → Option Nat → Prop
  | .idle, cur, pipe => pipe.isSome → cur.isSome
  | .resolving item _, cur, pipe => cur = some item ∧ pipe = none
  | .probing item _ pid, cur, pipe => cur = some item ∧ pipe = some pid

instance (p : Pending) (cur : Option Item) (pipe : Option Nat) :
    Decidable (pendingOk p cur pipe) := by
  cases p <;> simp only [pendingOk] <;> infer_instance

instance (s : EngineState) : Decidable (uidOk s) := by
  unfold uidOk; infer_instance

/-- Invariant at arbitrary reachable points, including mid-load. -/
def InvP (s : EngineState) : Prop :=
  s.alive = pipeList s.currentPipe ∧ uidOk s ∧
  pendingOk s.pending s.current s.currentPipe

/-- Invariant at quiescent observation points (between operations). -/
def Inv (s : EngineState) : Prop :=
  InvP s ∧ s.pending = .idle

instance (s : EngineState) : Decidable (InvP s) := by
  unfold InvP; infer_instance

instance (s : EngineState) : Decidable (Inv s) := by
  unfold Inv; infer_instance

/-- The notification emitted when a pending load completes successfully. -/
def loadOkEv (item : Item) : PlayCtx → Ev
  | .viaNext _ => .nowPlaying item.payload.title
  | .viaSame _ => .restarted item.payload.title

/-- The event trace of a playNext cascade in which the pending item and
every following queue item fail to resolve: each item is announced broken,
each queue item gets exactly one attempt, and the empty queue is announced
at the end. -/
def failTrace : Item → List Item → List Ev
  | item, [] => [.skippedBroken item.payload.title, .queueEmpty]
  | item, x :: r =>
      .skippedBroken item.payload.title :: .attempt x.uid :: failTrace x r

/-- Fixture: a queue item payload. -/
def sampleQueueItem : QueueItem :=
  ⟨"title", "source", "user", "vchan", "tchan"⟩

/-- Fixture: a queue item with the given identity. -/
def sampleItem (n : Nat) : Item := ⟨sampleQueueItem, n⟩

/-- Fixture: a quiescent engine with nothing playing. -/
def idleState : EngineState :=
  { queue := [], current := none, currentPipe := none, restartTried := false,
    currentResource := none, volumePct := 100, loopMode := .off,
    skipRequested := false, pending := .idle, vcConnected := false,
    playing := false, alive := [], nextPipeId := 0, nextUid := 0 }

/-- Fixture: an engine playing item 2 with items 0 and 1 queued. -/
def playingState : EngineState :=
  { idleState with
    queue := [sampleItem 0, sampleItem 1],
    current := some (sampleItem 2),
    currentPipe := some 7,
    alive := [7],
    currentResource := some 100,
    playing := true,
    nextPipeId := 8,
    nextUid := 3 }

/-- Fixture: raw playlist entries as returned by yt-dlp. -/
def rawA : RawEntry := ⟨some "urlA", none, none, some "A"⟩

/-- Fixture: a second raw playlist entry. -/
def rawB : RawEntry := ⟨some "urlB", none, none, some "B"⟩

/-- Fixture: the playing state with loop mode track. -/
def trackState : EngineState := { playingState with loopMode := .track }

/-- Fixture: the playing state with loop mode queue and a one-item queue. -/
def queueLoopState : EngineState :=
  { playingState with loopMode := .queue, queue := [sampleItem 0] }

/-- Fixture: the playing state mid-spawn, awaiting the demuxProbe of a
freshly spawned pipeline for the current item. -/
def loadingState : EngineState :=
  { playingState with
    pending := .probing (sampleItem 2) (.viaNext "tchan") 7,
    playing := false,
    currentResource := none }

/-- The URL-branch loop of part_002 collects kept entries up to the bound. -/
theorem pushLoop_eq (mx : Nat) :
    ∀ (arr : List RawEntry) (acc : List (String × String)),
      acc.length ≤ mx →
      pushLoop mx arr acc = acc ++ (arr.filterMap toEntry).take (mx - acc.length) := by
  intro arr
  induction arr with
  | nil => intro acc _; simp [pushLoop]
  | cons e rest ih =>
      intro acc hle
      by_cases hful : mx ≤ acc.length
      · have : mx = acc.length := le_antisymm hful hle
        simp [pushLoop, hful, this]
      · have hlt : acc.length < mx := lt_of_not_ge hful
        cases hte : toEntry e with
        | none =>
            rw [pushLoop]
            rw [if_neg hful]
            rw [hte]
            dsimp only
            rw [ih acc hle]
            simp [List.filterMap_cons, hte]
        | some pr =>
            rw [pushLoop]
            rw [if_neg hful]
            rw [hte]
            dsimp only
            rw [ih (acc ++ [pr]) (by simp; omega)]
            have hms : mx - acc.length = (mx - (acc.length + 1)) + 1 := by omega
            simp [List.filterMap_cons, hte, hms, List.take_succ_cons]

/-- fetchPlaylistEntries of part_002 on a successful resolver call is the
kept entries truncated at the clamped limit, in both branches. -/
theorem fetchPlaylistEntries_eq (b : Bool) (arr : List RawEntry) (limit : Int) :
    fetchPlaylistEntries b (some arr) limit =
      (arr.filterMap toEntry).take (clampLimit limit) := by
  cases b with
  | false => simp [fetchPlaylistEntries]
  | true =>
      simp only [fetchPlaylistEntries, if_true]
      rw [pushLoop_eq (clampLimit limit) arr [] (by simp)]
      simp [List.take_take]

/-- The driver is the identity on a quiescent state. -/
theorem runPendingFuel_idle (fuel : Nat) (oracle : Nat → Bool)
    (s : EngineState) (h : s.pending = .idle) :
    runPendingFuel fuel oracle s = (s, []) := by
  cases fuel <;> simp [runPendingFuel, h]

/-- Unfolding of the driver at a non-quiescent state. -/
theorem runPendingFuel_step (fuel : Nat) (oracle : Nat → Bool)
    (s : EngineState) (h : ¬ s.pending = .idle) :
    runPendingFuel (fuel + 1) oracle s =
      ((runPendingFuel fuel (fun n => oracle (n + 1)) (stepLoad (oracle 0) s).1).1,
       (stepLoad (oracle 0) s).2 ++
         (runPendingFuel fuel (fun n => oracle (n + 1)) (stepLoad (oracle 0) s).1).2) := by
  simp [runPendingFuel, h]

/-- The synchronous prefix of playNext never increases the measure beyond
the queue bound. -/
theorem playNextBegin_measure (tc : String) (s : EngineState)
    (hpend : s.pending = .idle) :
    loadMeasure (playNextBegin tc s).1 ≤ 2 * s.queue.length := by
  unfold playNextBegin startPlayback cleanupCurrentPipeline loadMeasure
  cases h : s.queue <;> simp [h, hpend, pendingRank] <;> omega

/-- The catch block never increases the measure beyond the queue bound. -/
theorem loadFail_measure (item : Item) (ctx : PlayCtx) (s : EngineState) :
    loadMeasure (loadFail item ctx s).1 ≤ 2 * s.queue.length := by
  cases ctx with
  | viaNext tc =>
      have h := playNextBegin_measure tc
        { s with current := none, pending := .idle } rfl
      simpa [loadFail] using h
  | viaSame tc =>
      have h := playNextBegin_measure tc
        { s with current := none, pending := .idle } rfl
      simpa [loadFail] using h

/-- Each resumption of a pending load strictly decreases the measure. -/
theorem stepLoad_measure (b : Bool) (s : EngineState)
    (h : ¬ s.pending = .idle) :
    loadMeasure (stepLoad b s).1 < loadMeasure s := by
  cases hp : s.pending with
  | idle => exact absurd hp h
  | resolving item ctx =>
      cases b with
      | true => simp [stepLoad, hp, loadMeasure, pendingRank]
      | false =>
          have hle := loadFail_measure item ctx s
          have : loadMeasure s = 2 * s.queue.length + 2 := by
            simp [loadMeasure, hp, pendingRank]
          simp only [stepLoad, hp, Bool.false_eq_true, if_false]
          omega
  | probing item ctx pid =>
      have : loadMeasure s = 2 * s.queue.length + 1 := by
        simp [loadMeasure, hp, pendingRank]
      cases b with
      | true =>
          cases ctx <;> simp [stepLoad, hp, loadMeasure, pendingRank]
      | false =>
          have hle := loadFail_measure item ctx s
          simp only [stepLoad, hp, Bool.false_eq_true, if_false]
          omega

/-- With fuel at least the measure, the driver reaches quiescence. -/
theorem runPendingFuel_quiesce :
    ∀ (fuel : Nat) (oracle : Nat → Bool) (s : EngineState),
      loadMeasure s ≤ fuel → (runPendingFuel fuel oracle s).1.pending = .idle := by
  intro fuel
  induction fuel with
  | zero =>
      intro oracle s h
      have hr : pendingRank s.pending = 0 := by
        unfold loadMeasure at h; omega
      have : s.pending = .idle := by
        cases hp : s.pending <;> simp [hp, pendingRank] at hr ⊢
      simp [runPendingFuel, this]
  | succ fuel ih =>
      intro oracle s h
      by_cases hp : s.pending = .idle
      · rw [runPendingFuel_idle _ _ _ hp]; exact hp
      · rw [runPendingFuel_step _ _ _ hp]
        exact ih _ _ (by have := stepLoad_measure (oracle 0) s hp; omega)

/-- The synchronous prefix of playNext establishes InvP from the queue and
pipe discipline of its input. -/
theorem playNextBegin_invP (tc : String) (s : EngineState)
    (halive : s.alive = pipeList s.currentPipe)
    (huid : uidOk s) (hpend : s.pending = .idle) :
    InvP (playNextBegin tc s).1 := by
  obtain ⟨h1, h2, h3, h4⟩ := huid
  simp only [playNextBegin, startPlayback, cleanupCurrentPipeline]
  cases hq : s.queue with
  | nil =>
      simp only [hq]
      refine ⟨?_, ⟨?_, ?_, ?_, ?_⟩, ?_⟩
      · cases hcp : s.currentPipe <;> simp [halive, hcp, pipeList]
      · simp
      · simpa [hq] using h2
      · simpa [hq] using h3
      · simp
      · simp [pendingOk, hpend]
  | cons x rest =>
      simp only [hq]
      have hmap := h2
      rw [hq] at hmap
      simp only [List.map_cons, List.nodup_cons] at hmap
      refine ⟨?_, ⟨?_, ?_, ?_, ?_⟩, ?_⟩
      · cases hcp : s.currentPipe <;> simp [halive, hcp, pipeList]
      · intro c hc it hit
        simp only [Option.toList_some, List.mem_singleton] at hc
        subst hc
        intro he
        exact hmap.1 (he ▸ List.mem_map_of_mem Item.uid hit)
      · exact hmap.2
      · intro it hit
        exact h3 it (by rw [hq]; exact List.mem_cons_of_mem _ hit)
      · intro c hc
        simp only [Option.toList_some, List.mem_singleton] at hc
        rw [hc]
        exact h3 x (by rw [hq]; exact List.mem_cons_self _ _)
      · exact ⟨rfl, rfl⟩

/-- The synchronous prefix of playSame establishes InvP when the replayed
item is absent from the queue and below the allocation counter. -/
theorem playSameBegin_invP (tc : String) (item : Item) (s : EngineState)
    (halive : s.alive = pipeList s.currentPipe)
    (hnodup : (s.queue.map Item.uid).Nodup)
    (hfreshq : ∀ it ∈ s.queue, it.uid < s.nextUid)
    (hnotin : ∀ it ∈ s.queue, it.uid ≠ item.uid)
    (hfresh : item.uid < s.nextUid) :
    InvP (playSameBegin tc item s).1 := by
  simp only [playSameBegin, startPlayback, cleanupCurrentPipeline]
  refine ⟨?_, ⟨?_, ?_, ?_, ?_⟩, ⟨rfl, rfl⟩⟩
  · cases hcp : s.currentPipe <;> simp [halive, hcp, pipeList]
  · intro c hc it hit
    simp only [Option.toList_some, List.mem_singleton] at hc
    subst hc
    exact hnotin it hit
  · exact hnodup
  · exact hfreshq
  · intro c hc
    simp only [Option.toList_some, List.mem_singleton] at hc
    subst hc
    exact hfresh

/-- The catch block establishes InvP from the queue and pipe discipline. -/
theorem loadFail_invP (item : Item) (ctx : PlayCtx) (s : EngineState)
    (halive : s.alive = pipeList s.currentPipe)
    (hnodup : (s.queue.map Item.uid).Nodup)
    (hfreshq : ∀ it ∈ s.queue, it.uid < s.nextUid) :
    InvP (loadFail item ctx s).1 := by
  have base : InvP (playNextBegin
      (match ctx with | .viaNext tc => tc | .viaSame tc => tc)
      { s with current := none, pending := .idle }).1 := by
    apply playNextBegin_invP
    · exact halive
    · exact ⟨by simp, hnodup, hfreshq, by simp⟩
    · rfl
  cases ctx with
  | viaNext tc => simpa [loadFail] using base
  | viaSame tc => simpa [loadFail] using base

/-- Each resumption of a pending load preserves InvP. -/
theorem stepLoad_invP (b : Bool) (s : EngineState) (h : InvP s) :
    InvP (stepLoad b s).1 := by
  obtain ⟨halive, huid, hpend⟩ := h
  have hnodup := huid.2.1
  have hfreshq := huid.2.2.1
  cases hp : s.pending with
  | idle =>
      simp only [stepLoad, hp]
      exact ⟨halive, huid, hp ▸ hpend⟩
  | resolving item ctx =>
      rw [hp] at hpend
      simp only [pendingOk] at hpend
      obtain ⟨hcur, hpipe⟩ := hpend
      cases b with
      | true =>
          simp only [stepLoad, hp, if_true]
          refine ⟨?_, ?_, ?_⟩
          · rw [hpipe] at halive
            simp [pipeList] at halive
            simp [halive, pipeList]
          · exact ⟨huid.1, hnodup, hfreshq, huid.2.2.2⟩
          · simp [pendingOk, hcur]
      | false =>
          simp only [stepLoad, hp, Bool.false_eq_true, if_false]
          exact loadFail_invP item ctx s halive hnodup hfreshq
  | probing item ctx pid =>
      rw [hp] at hpend
      simp only [pendingOk] at hpend
      obtain ⟨hcur, hpipe⟩ := hpend
      cases b with
      | true =>
          cases ctx with
          | viaNext tc =>
              simp only [stepLoad, hp, if_true]
              exact ⟨halive, ⟨huid.1, hnodup, hfreshq, huid.2.2.2⟩,
                by simp [pendingOk, hcur]⟩
          | viaSame tc =>
              simp only [stepLoad, hp, if_true]
              exact ⟨halive, ⟨huid.1, hnodup, hfreshq, huid.2.2.2⟩,
                by simp [pendingOk, hcur]⟩
      | false =>
          simp only [stepLoad, hp, Bool.false_eq_true, if_false]
          exact loadFail_invP item ctx s halive hnodup hfreshq

/-- The driver preserves InvP. -/
theorem runPendingFuel_invP :
    ∀ (fuel : Nat) (oracle : Nat → Bool) (s : EngineState), InvP s →
      InvP (runPendingFuel fuel oracle s).1 := by
  intro fuel
  induction fuel with
  | zero => intro oracle s h; simpa [runPendingFuel] using h
  | succ fuel ih =>
      intro oracle s h
      by_cases hp : s.pending = .idle
      · rw [runPendingFuel_idle _ _ _ hp]; exact h
      · rw [runPendingFuel_step _ _ _ hp]
        exact ih _ _ (stepLoad_invP _ _ h)

/-- The driver leaves every state satisfying InvP in a quiescent state
satisfying the full invariant. -/
theorem runPending_inv (oracle : Nat → Bool) (s : EngineState) (h : InvP s) :
    Inv (runPending oracle s).1 :=
  ⟨runPendingFuel_invP _ _ _ h, runPendingFuel_quiesce _ _ _ le_rfl⟩

/-- playNext preserves the invariant. -/
theorem playNext_inv (oracle : Nat → Bool) (tc : String) (s : EngineState)
    (h : Inv s) : Inv (playNext oracle tc s).1 := by
  obtain ⟨⟨halive, huid, _⟩, hpend⟩ := h
  have h1 := playNextBegin_invP tc s halive huid hpend
  simp only [playNext]
  exact runPending_inv _ _ h1

/-- playSame on the current item preserves the invariant. -/
theorem playSame_inv (oracle : Nat → Bool) (tc : String) (item : Item)
    (s : EngineState) (h : Inv s) (hc : s.current = some item) :
    Inv (playSame oracle tc item s).1 := by
  obtain ⟨⟨halive, huid, _⟩, _⟩ := h
  have hnotin : ∀ it ∈ s.queue, it.uid ≠ item.uid := fun it hit =>
    huid.1 item (by simp [hc]) it hit
  have hfresh : item.uid < s.nextUid := huid.2.2.2 item (by simp [hc])
  have h1 := playSameBegin_invP tc item s halive huid.2.1 huid.2.2.1 hnotin hfresh
  simp only [playSame]
  exact runPending_inv _ _ h1

/-- The Idle handler preserves the invariant. -/
theorem handlePlayerIdle_inv (oracle : Nat → Bool) (s : EngineState)
    (h : Inv s) : Inv (handlePlayerIdle oracle s).1 := by
  obtain ⟨⟨halive, huid, _⟩, hpend⟩ := h
  obtain ⟨h1, h2, h3, h4⟩ := huid
  have halive2 : (match s.currentPipe with
      | none => s.alive
      | some p => s.alive.erase p) = ([] : List Nat) := by
    cases hcp : s.currentPipe <;> simp [halive, hcp, pipeList]
  simp only [handlePlayerIdle, cleanupCurrentPipeline]
  cases hc : s.current with
  | none =>
      refine ⟨⟨halive2, ⟨fun c hcm => absurd hcm (List.not_mem_nil c),
        h2, h3, fun c hcm => absurd hcm (List.not_mem_nil c)⟩, ?_⟩, hpend⟩
      show pendingOk s.pending none none
      rw [hpend]
      simp [pendingOk]
  | some finished =>
      dsimp only
      have hnotin : ∀ it ∈ s.queue, it.uid ≠ finished.uid := fun it hit =>
        h1 finished (by simp [hc]) it hit
      have hfresh : finished.uid < s.nextUid := h4 finished (by simp [hc])
      by_cases hb : s.loopMode = .track ∧ s.skipRequested = false
      · rw [if_pos hb]
        simp only [playSame]
        apply runPending_inv
        apply playSameBegin_invP
        · exact halive2
        · exact h2
        · exact h3
        · exact hnotin
        · exact hfresh
      · rw [if_neg hb]
        by_cases hq : s.loopMode = .queue
        · rw [if_pos hq]
          simp only [playNext]
          apply runPending_inv
          apply playNextBegin_invP
          · exact halive2
          · refine ⟨fun c hcm => absurd hcm (List.not_mem_nil c), ?_, ?_,
              fun c hcm => absurd hcm (List.not_mem_nil c)⟩
            · show ((s.queue ++ [(⟨finished.payload, s.nextUid⟩ : Item)]).map
                Item.uid).Nodup
              rw [List.map_append, List.nodup_append]
              refine ⟨h2, by simp, ?_⟩
              intro a ha hb2
              simp only [List.map_cons, List.map_nil, List.mem_singleton] at hb2
              subst hb2
              obtain ⟨it, hit, hita⟩ := List.mem_map.mp ha
              exact absurd hita (Nat.ne_of_lt (h3 it hit))
            · intro it hit
              rcases List.mem_append.mp hit with hit | hit
              · exact Nat.lt_succ_of_lt (h3 it hit)
              · rw [List.mem_singleton] at hit
                subst hit
                exact Nat.lt_succ_self _
          · exact hpend
        · rw [if_neg hq]
          simp only [playNext]
          apply runPending_inv
          apply playNextBegin_invP
          · exact halive2
          · exact ⟨fun c hcm => absurd hcm (List.not_mem_nil c), h2, h3,
              fun c hcm => absurd hcm (List.not_mem_nil c)⟩
          · exact hpend

/-- The error handler preserves the invariant. -/
theorem handlePlayerError_inv (oracle : Nat → Bool) (s : EngineState)
    (h : Inv s) : Inv (handlePlayerError oracle s).1 := by
  obtain ⟨⟨halive, huid, hpo⟩, hpend⟩ := h
  obtain ⟨h1, h2, h3, h4⟩ := huid
  simp only [handlePlayerError]
  cases hc : s.current with
  | none =>
      simp only [hc]
      have hpo2 : s.currentPipe.isSome → s.current.isSome := by
        have hx := hpo
        rw [hpend] at hx
        exact hx
      have hpn : s.currentPipe = none := by
        cases hcp : s.currentPipe with
        | none => rfl
        | some p =>
            have hx := hpo2 (by simp [hcp])
            rw [hc] at hx
            simp at hx
      exact ⟨⟨halive, ⟨by simp [hc], h2, h3, by simp [hc]⟩,
        by simp [pendingOk, hpend, hpn]⟩, hpend⟩
  | some cur =>
      simp only [hc]
      have hnotin : ∀ it ∈ s.queue, it.uid ≠ cur.uid := fun it hit =>
        h1 cur (by simp [hc]) it hit
      have hfresh : cur.uid < s.nextUid := h4 cur (by simp [hc])
      by_cases hr : s.restartTried = false
      · rw [if_pos hr]
        simp only [playSame]
        apply runPending_inv
        exact playSameBegin_invP _ cur _ halive h2 h3 hnotin hfresh
      · rw [if_neg hr]
        simp only [playNext]
        apply runPending_inv
        apply playNextBegin_invP
        · exact halive
        · exact ⟨by simpa [hc] using h1, h2, h3, by simpa [hc] using h4⟩
        · exact hpend

/-- The skip handler preserves the invariant. -/
theorem skipCmd_inv (s : EngineState) (h : Inv s) : Inv (skipCmd s) := by
  obtain ⟨⟨halive, huid, _⟩, hpend⟩ := h
  obtain ⟨h1, h2, h3, h4⟩ := huid
  refine ⟨⟨?_, ⟨?_, ?_, ?_, ?_⟩, ?_⟩, ?_⟩
  · cases hcp : s.currentPipe <;>
      simp [skipCmd, cleanupCurrentPipeline, halive, hcp, pipeList]
  · simpa [skipCmd, cleanupCurrentPipeline] using h1
  · simpa [skipCmd, cleanupCurrentPipeline] using h2
  · simpa [skipCmd, cleanupCurrentPipeline] using h3
  · simpa [skipCmd, cleanupCurrentPipeline] using h4
  · simp [skipCmd, cleanupCurrentPipeline, pendingOk, hpend]
  · simpa [skipCmd, cleanupCurrentPipeline] using hpend

/-- Pushing a freshly allocated item preserves the invariant. -/
theorem push_inv (s : EngineState) (payload : QueueItem) (h : Inv s) :
    Inv { s with queue := s.queue ++ [⟨payload, s.nextUid⟩],
                 nextUid := s.nextUid + 1 } := by
  obtain ⟨⟨halive, ⟨h1, h2, h3, h4⟩, hpo⟩, hpend⟩ := h
  refine ⟨⟨halive, ⟨?_, ?_, ?_, ?_⟩, hpo⟩, hpend⟩
  · intro c hcm it hit
    rcases List.mem_append.mp hit with hit | hit
    · exact h1 c hcm it hit
    · rw [List.mem_singleton] at hit
      subst hit
      exact Nat.ne_of_gt (h4 c hcm)
  · show ((s.queue ++ [(⟨payload, s.nextUid⟩ : Item)]).map Item.uid).Nodup
    rw [List.map_append, List.nodup_append]
    refine ⟨h2, by simp, ?_⟩
    intro a ha hb2
    simp only [List.map_cons, List.map_nil, List.mem_singleton] at hb2
    subst hb2
    obtain ⟨it, hit, hita⟩ := List.mem_map.mp ha
    exact absurd hita (Nat.ne_of_lt (h3 it hit))
  · intro it hit
    rcases List.mem_append.mp hit with hit | hit
    · exact Nat.lt_succ_of_lt (h3 it hit)
    · rw [List.mem_singleton] at hit
      subst hit
      exact Nat.lt_succ_self _
  · intro c hcm
    exact Nat.lt_succ_of_lt (h4 c hcm)

/-- The play command handler preserves the invariant. -/
theorem playCmd_inv (oracle : Nat → Bool)
    (title source requestedBy voiceChannelId textChannelId : String)
    (s : EngineState) (h : Inv s) :
    Inv (playCmd oracle title source requestedBy voiceChannelId textChannelId s).1 := by
  have h2 := push_inv s ⟨title, source, requestedBy, voiceChannelId, textChannelId⟩ h
  simp only [playCmd]
  by_cases hcur : s.current = none
  · rw [if_pos hcur]
    exact playNext_inv _ _ _ h2
  · rw [if_neg hcur]
    exact h2

/-- Each push of the playlist loop preserves the invariant. -/
theorem pushEntry_inv (requestedBy voiceChannelId textChannelId : String)
    (s : EngineState) (e : String × String) (h : Inv s) :
    Inv (pushEntry requestedBy voiceChannelId textChannelId s e) :=
  push_inv s ⟨e.1, e.2, requestedBy, voiceChannelId, textChannelId⟩ h

/-- The playlist push loop preserves the invariant. -/
theorem foldl_pushEntry_inv (requestedBy voiceChannelId textChannelId : String) :
    ∀ (entries : List (String × String)) (s : EngineState), Inv s →
      Inv (entries.foldl (pushEntry requestedBy voiceChannelId textChannelId) s) := by
  intro entries
  induction entries with
  | nil => intro s h; simpa using h
  | cons e rest ih =>
      intro s h
      simp only [List.foldl_cons]
      exact ih _ (pushEntry_inv _ _ _ _ _ h)

/-- The playlist command handler preserves the invariant. -/
theorem playlistCmd_inv (oracle : Nat → Bool) (entries : List (String × String))
    (requestedBy voiceChannelId textChannelId : String)
    (s : EngineState) (h : Inv s) :
    Inv (playlistCmd oracle entries requestedBy voiceChannelId textChannelId s).1 := by
  simp only [playlistCmd]
  by_cases he : entries = []
  · rw [if_pos he]; exact h
  · rw [if_neg he]
    have h2 := foldl_pushEntry_inv requestedBy voiceChannelId textChannelId entries s h
    by_cases hcur :
        (entries.foldl (pushEntry requestedBy voiceChannelId textChannelId) s).current = none
    · rw [if_pos hcur]
      exact playNext_inv _ _ _ h2
    · rw [if_neg hcur]
      exact h2

/-- The remove command handler preserves the invariant. -/
theorem removeCmd_inv (s : EngineState) (index : Int) (h : Inv s) :
    Inv (removeCmd s index).1 := by
  obtain ⟨⟨halive, ⟨h1, h2, h3, h4⟩, hpo⟩, hpend⟩ := h
  simp only [removeCmd]
  by_cases hz : s.queue.length = 0
  · rw [if_pos hz]
    exact ⟨⟨halive, ⟨h1, h2, h3, h4⟩, hpo⟩, hpend⟩
  · rw [if_neg hz]
    by_cases hb : index < 1 ∨ (s.queue.length : Int) < index
    · rw [if_pos hb]
      exact ⟨⟨halive, ⟨h1, h2, h3, h4⟩, hpo⟩, hpend⟩
    · rw [if_neg hb]
      refine ⟨⟨halive, ⟨?_, ?_, ?_, h4⟩, hpo⟩, hpend⟩
      · intro c hcm it hit
        exact h1 c hcm it ((List.eraseIdx_sublist _ _).subset hit)
      · show ((s.queue.eraseIdx ((index - 1).toNat)).map Item.uid).Nodup
        exact List.Nodup.sublist ((List.eraseIdx_sublist _ _).map _) h2
      · intro it hit
        exact h3 it ((List.eraseIdx_sublist _ _).subset hit)

/-- The volume command handler preserves the invariant. -/
theorem setVolumePct_inv (s : EngineState) (pct : Int) (h : Inv s) :
    Inv (setVolumePct s pct) := by
  obtain ⟨⟨halive, huid, hpo⟩, hpend⟩ := h
  simp only [setVolumePct, applyVolume]
  cases hr : s.currentResource <;> exact ⟨⟨halive, huid, hpo⟩, hpend⟩

/-- Excess fuel does not change the driver result. -/
theorem runPendingFuel_over :
    ∀ (fuel : Nat) (oracle : Nat → Bool) (s : EngineState),
      loadMeasure s ≤ fuel →
      runPendingFuel fuel oracle s = runPending oracle s := by
  intro fuel
  induction fuel using Nat.strong_induction_on with
  | _ fuel ih =>
      intro oracle s hle
      by_cases hp : s.pending = .idle
      · rw [runPendingFuel_idle _ _ _ hp, runPending,
          runPendingFuel_idle _ _ _ hp]
      · have hm1 : 1 ≤ loadMeasure s := by
          cases hpp : s.pending with
          | idle => exact absurd hpp hp
          | resolving item ctx => simp [loadMeasure, hpp, pendingRank]
          | probing item ctx pid => simp [loadMeasure, hpp, pendingRank]
        obtain ⟨k, hk⟩ : ∃ k, loadMeasure s = k + 1 :=
          ⟨loadMeasure s - 1, by omega⟩
        obtain ⟨f, hf⟩ : ∃ f, fuel = f + 1 := ⟨fuel - 1, by omega⟩
        subst hf
        have hdec := stepLoad_measure (oracle 0) s hp
        rw [runPendingFuel_step _ _ _ hp, runPending, hk,
          runPendingFuel_step _ _ _ hp]
        rw [ih f (by omega) _ _ (by omega), ih k (by omega) _ _ (by omega)]

/-- A pending probe that succeeds starts the player: the resource is
created with the stored volume applied, and the pending load ends. -/
theorem runPending_probing_ok (oracle : Nat → Bool) (s : EngineState)
    (item : Item) (ctx : PlayCtx) (pid : Nat)
    (hp : s.pending = .probing item ctx pid) (h0 : oracle 0 = true) :
    runPending oracle s =
      ({ s with currentResource := some (max s.volumePct 0),
                playing := true, pending := .idle }, [loadOkEv item ctx]) := by
  have hne : ¬ s.pending = .idle := by simp [hp]
  have hfe : loadMeasure s = 2 * s.queue.length + 1 := by
    simp [loadMeasure, hp, pendingRank]
  rw [runPending, hfe, runPendingFuel_step _ _ _ hne]
  cases ctx with
  | viaNext tc =>
      have hs : stepLoad (oracle 0) s =
          ({ s with currentResource := some (max s.volumePct 0),
                    playing := true, pending := .idle },
           [.nowPlaying item.payload.title]) := by
        simp [stepLoad, hp, h0]
      rw [hs, runPendingFuel_idle _ _ _ rfl]
      simp [loadOkEv]
  | viaSame tc =>
      have hs : stepLoad (oracle 0) s =
          ({ s with currentResource := some (max s.volumePct 0),
                    playing := true, pending := .idle },
           [.restarted item.payload.title]) := by
        simp [stepLoad, hp, h0]
      rw [hs, runPendingFuel_idle _ _ _ rfl]
      simp [loadOkEv]

/-- A pending resolution that succeeds and whose probe also succeeds spawns
one fresh pipe and starts the player. -/
theorem runPending_resolving_ok (oracle : Nat → Bool) (s : EngineState)
    (item : Item) (ctx : PlayCtx)
    (hp : s.pending = .resolving item ctx)
    (h0 : oracle 0 = true) (h1 : oracle 1 = true) :
    runPending oracle s =
      ({ s with currentPipe := some s.nextPipeId,
                alive := s.nextPipeId :: s.alive,
                nextPipeId := s.nextPipeId + 1,
                currentResource := some (max s.volumePct 0),
                playing := true, pending := .idle }, [loadOkEv item ctx]) := by
  have hne : ¬ s.pending = .idle := by simp [hp]
  have hfe : loadMeasure s = (2 * s.queue.length + 1) + 1 := by
    simp [loadMeasure, hp, pendingRank]
  rw [runPending, hfe, runPendingFuel_step _ _ _ hne]
  have hs : stepLoad (oracle 0) s =
      ({ s with currentPipe := some s.nextPipeId,
                alive := s.nextPipeId :: s.alive,
                nextPipeId := s.nextPipeId + 1,
                pending := .probing item ctx s.nextPipeId }, []) := by
    simp [stepLoad, hp, h0]
  rw [hs]
  have hover : runPendingFuel (2 * s.queue.length + 1) (fun n => oracle (n + 1))
      ({ s with currentPipe := some s.nextPipeId,
                alive := s.nextPipeId :: s.alive,
                nextPipeId := s.nextPipeId + 1,
                pending := .probing item ctx s.nextPipeId }) =
      runPending (fun n => oracle (n + 1))
        ({ s with currentPipe := some s.nextPipeId,
                  alive := s.nextPipeId :: s.alive,
                  nextPipeId := s.nextPipeId + 1,
                  pending := .probing item ctx s.nextPipeId }) :=
    runPendingFuel_over _ _ _ (by simp [loadMeasure, pendingRank])
  rw [hover, runPending_probing_ok (fun n => oracle (n + 1)) _ item ctx
    s.nextPipeId rfl h1]
  simp

/-- The attempts in a failing cascade are exactly the queue items, in order. -/
theorem failTrace_attempts (item : Item) :
    ∀ q : List Item, (failTrace item q).filterMap attemptUid = q.map Item.uid := by
  intro q
  induction q generalizing item with
  | nil => simp [failTrace, attemptUid]
  | cons x r ih => simp [failTrace, attemptUid, ih x]

/-- A failing cascade always announces the empty queue. -/
theorem failTrace_queueEmpty (item : Item) :
    ∀ q : List Item, Ev.queueEmpty ∈ failTrace item q := by
  intro q
  induction q generalizing item with
  | nil => simp [failTrace]
  | cons x r ih => simp [failTrace, ih x]

/-- A pending resolution inside playNext that fails, followed by failures of
every remaining queue item, settles the engine: empty queue, no current
track, voice connection destroyed, and the failing trace emitted. -/
theorem runPending_allFail :
    ∀ (q : List Item) (item : Item) (s : EngineState) (tc : String),
      s.pending = .resolving item (.viaNext tc) → s.queue = q →
      (runPending (fun _ => false) s).1.queue = [] ∧
      (runPending (fun _ => false) s).1.current = none ∧
      (runPending (fun _ => false) s).1.vcConnected = false ∧
      (runPending (fun _ => false) s).1.pending = .idle ∧
      (runPending (fun _ => false) s).2 = failTrace item q := by
  intro q
  induction q with
  | nil =>
      intro item s tc hp hq
      have hne : ¬ s.pending = .idle := by simp [hp]
      have hfe : loadMeasure s = 1 + 1 := by
        simp [loadMeasure, hp, pendingRank, hq]
      rw [runPending, hfe, runPendingFuel_step _ _ _ hne]
      simp [stepLoad, hp, hq, loadFail, playNextBegin, startPlayback,
        cleanupCurrentPipeline, runPendingFuel, failTrace]
  | cons x r ih =>
      intro item s tc hp hq
      have hne : ¬ s.pending = .idle := by simp [hp]
      have hk : loadMeasure s = (2 * r.length + 3) + 1 := by
        have : loadMeasure s = 2 * (r.length + 1) + 2 := by
          simp [loadMeasure, hp, pendingRank, hq]
        omega
      rw [runPending, hk, runPendingFuel_step _ _ _ hne]
      dsimp only
      have ht1 : (stepLoad ((fun _ => false) 0 : Bool) s).1.pending =
          .resolving x (.viaNext tc) ∧
          (stepLoad ((fun _ => false) 0 : Bool) s).1.queue = r ∧
          (stepLoad ((fun _ => false) 0 : Bool) s).2 =
            [.skippedBroken item.payload.title, .attempt x.uid] := by
        refine ⟨?_, ?_, ?_⟩ <;>
          simp [stepLoad, hp, hq, loadFail, playNextBegin, startPlayback,
            cleanupCurrentPipeline]
      have hmt : loadMeasure (stepLoad ((fun _ => false) 0 : Bool) s).1 =
          2 * r.length + 2 := by
        rw [loadMeasure, ht1.2.1, ht1.1]
        simp [pendingRank]
      have hover : runPendingFuel (2 * r.length + 3)
          (fun n => (fun _ => false) (n + 1))
          (stepLoad ((fun _ => false) 0 : Bool) s).1 =
          runPending (fun n => (fun _ => false) (n + 1))
            (stepLoad ((fun _ => false) 0 : Bool) s).1 :=
        runPendingFuel_over _ _ _ (by omega)
      have hsame : runPending (fun n => (fun _ => false) (n + 1))
          (stepLoad ((fun _ => false) 0 : Bool) s).1 =
          runPending (fun _ => false)
            (stepLoad ((fun _ => false) 0 : Bool) s).1 := rfl
      rw [hover, hsame]
      obtain ⟨e1, e2, e3, e4, e5⟩ :=
        ih x (stepLoad ((fun _ => false) 0 : Bool) s).1 tc ht1.1 ht1.2.1
      refine ⟨e1, e2, e3, e4, ?_⟩
      rw [ht1.2.2, e5]
      simp [failTrace]

/-- The driver does nothing on a quiescent state. -/
theorem runPending_idle (oracle : Nat → Bool) (s : EngineState)
    (h : s.pending = .idle) : runPending oracle s = (s, []) :=
  runPendingFuel_idle _ _ _ h

/-- playNext on an empty queue settles idle: current cleared, voice
connection destroyed, empty queue announced. -/
theorem playNext_ok_nil (oracle : Nat → Bool) (tc : String) (s : EngineState)
    (hq : s.queue = []) (hpend : s.pending = .idle) :
    (playNext oracle tc s).1.current = none ∧
    (playNext oracle tc s).1.queue = [] ∧
    (playNext oracle tc s).1.vcConnected = false ∧
    (playNext oracle tc s).1.pending = .idle ∧
    (playNext oracle tc s).1.restartTried = false ∧
    (playNext oracle tc s).1.skipRequested = s.skipRequested ∧
    (playNext oracle tc s).1.loopMode = s.loopMode ∧
    (playNext oracle tc s).2 = [.queueEmpty] := by
  simp only [playNext, playNextBegin, startPlayback, cleanupCurrentPipeline, hq]
  rw [runPending_idle oracle _ (by exact hpend)]
  simp [hpend]

/-- playNext on a non-empty queue with successful resolution and probe:
the head is shifted into current, one fresh pipe is spawned, and the now
playing notification follows the attempt. -/
theorem playNext_ok_cons (oracle : Nat → Bool) (tc : String) (s : EngineState)
    (x : Item) (r : List Item)
    (hq : s.queue = x :: r) (hpend : s.pending = .idle)
    (h0 : oracle 0 = true) (h1 : oracle 1 = true) :
    (playNext oracle tc s).1.current = some x ∧
    (playNext oracle tc s).1.queue = r ∧
    (playNext oracle tc s).1.restartTried = false ∧
    (playNext oracle tc s).1.pending = .idle ∧
    (playNext oracle tc s).1.loopMode = s.loopMode ∧
    (playNext oracle tc s).1.skipRequested = s.skipRequested ∧
    (playNext oracle tc s).1.currentPipe = some s.nextPipeId ∧
    (playNext oracle tc s).1.playing = true ∧
    (playNext oracle tc s).2 = [.attempt x.uid, .nowPlaying x.payload.title] := by
  simp only [playNext, playNextBegin, startPlayback, cleanupCurrentPipeline, hq]
  rw [runPending_resolving_ok oracle _ x (.viaNext tc) rfl h0 h1]
  simp [loadOkEv]

/-- playSame with successful resolution and probe: the same item remains
current, a fresh pipe replaces the old one, and the restarted notification
follows the attempt. -/
theorem playSame_ok (oracle : Nat → Bool) (tc : String) (item : Item)
    (s : EngineState) (h0 : oracle 0 = true) (h1 : oracle 1 = true) :
    (playSame oracle tc item s).1.current = some item ∧
    (playSame oracle tc item s).1.pending = .idle ∧
    (playSame oracle tc item s).1.queue = s.queue ∧
    (playSame oracle tc item s).1.currentPipe = some s.nextPipeId ∧
    (playSame oracle tc item s).1.restartTried = s.restartTried ∧
    (playSame oracle tc item s).1.loopMode = s.loopMode ∧
    (playSame oracle tc item s).1.skipRequested = s.skipRequested ∧
    (playSame oracle tc item s).2 =
      [.attempt item.uid, .restarted item.payload.title] ∧
    (s.alive = pipeList s.currentPipe →
      (playSame oracle tc item s).1.alive = [s.nextPipeId]) := by
  simp only [playSame, playSameBegin, startPlayback, cleanupCurrentPipeline]
  rw [runPending_resolving_ok oracle _ item (.viaSame tc) rfl h0 h1]
  refine ⟨by simp, by simp, by simp, by simp, by simp, by simp, by simp,
    by simp [loadOkEv], ?_⟩
  intro halive
  cases hcp : s.currentPipe <;> simp [halive, hcp, pipeList]

/-- The stop handler preserves the invariant. -/
theorem stopCmd_inv (s : EngineState) (h : Inv s) : Inv (stopCmd s) := by
  obtain ⟨⟨halive, _, _⟩, hpend⟩ := h
  refine ⟨⟨?_, ⟨by simp [stopCmd, cleanupCurrentPipeline],
      by simp [stopCmd, cleanupCurrentPipeline],
      by simp [stopCmd, cleanupCurrentPipeline],
      by simp [stopCmd, cleanupCurrentPipeline]⟩, ?_⟩, ?_⟩
  · cases hcp : s.currentPipe <;>
      simp [stopCmd, cleanupCurrentPipeline, halive, hcp, pipeList]
  · simp [stopCmd, cleanupCurrentPipeline, pendingOk, hpend]
  · simpa [stopCmd, cleanupCurrentPipeline] using hpend

/-- The synchronous prefix of playNext always clears the restart guard. -/
theorem playNextBegin_restartTried (tc : String) (s : EngineState) :
    (playNextBegin tc s).1.restartTried = false := by
  cases hq : s.queue <;>
    simp [playNextBegin, startPlayback, cleanupCurrentPipeline, hq]

/-- The catch block always leaves the restart guard cleared. -/
theorem loadFail_restartTried (item : Item) (ctx : PlayCtx) (s : EngineState) :
    (loadFail item ctx s).1.restartTried = false := by
  cases ctx <;> simp [loadFail, playNextBegin_restartTried]

/-- Resumptions of a pending load keep the restart guard cleared. -/
theorem stepLoad_restartTried (b : Bool) (s : EngineState)
    (h : s.restartTried = false) : (stepLoad b s).1.restartTried = false := by
  cases hp : s.pending with
  | idle => simpa [stepLoad, hp] using h
  | resolving item ctx =>
      cases b with
      | true => simpa [stepLoad, hp] using h
      | false =>
          simp only [stepLoad, hp, Bool.false_eq_true, if_false]
          exact loadFail_restartTried item ctx s
  | probing item ctx pid =>
      cases b with
      | true => cases ctx <;> simpa [stepLoad, hp] using h
      | false =>
          simp only [stepLoad, hp, Bool.false_eq_true, if_false]
          exact loadFail_restartTried item ctx s

/-- The driver keeps the restart guard cleared. -/
theorem runPendingFuel_restartTried :
    ∀ (fuel : Nat) (oracle : Nat → Bool) (s : EngineState),
      s.restartTried = false →
      (runPendingFuel fuel oracle s).1.restartTried = false := by
  intro fuel
  induction fuel with
  | zero => intro oracle s h; simpa [runPendingFuel] using h
  | succ fuel ih =>
      intro oracle s h
      by_cases hp : s.pending = .idle
      · rw [runPendingFuel_idle _ _ _ hp]; exact h
      · rw [runPendingFuel_step _ _ _ hp]
        exact ih _ _ (stepLoad_restartTried _ _ h)

/-- Whenever playNext begins loading a new track (or settles), the restart
guard ends cleared. -/
theorem playNext_restartTried (oracle : Nat → Bool) (tc : String)
    (s : EngineState) : (playNext oracle tc s).1.restartTried = false := by
  simp only [playNext, runPending]
  exact runPendingFuel_restartTried _ _ _ (playNextBegin_restartTried tc s)

/-- C7 counterexample: in the src/index.js variant of fetchPlaylistEntries
the URL/playlist branch is not bounded by the clamped limit: a two-entry
playlist expanded with limit 1 yields two entries, exceeding the clamp. -/
theorem claim_resolveBatch_counterexample :
    (fetchPlaylistEntriesV2 true (some [rawA, rawB]) 1).length = 2 ∧
    clampLimit 1 = 1 ∧
    ¬ ((fetchPlaylistEntriesV2 true (some [rawA, rawB]) 1).length ≤
        clampLimit 1) := by
  decide

/-- C7 amended: the part_002 fetchPlaylistEntries returns the kept entries
in resolver order truncated at the clamped limit (limit 0 falling back to
the default 25) in both branches, and an empty list on resolver failure;
the src/index.js variant returns an empty list on failure, and its
keyword-search branch is bounded by the clamp only insofar as the search
request itself returns at most that many entries, while its URL branch is
unbounded. -/
theorem claim_resolveBatch_amended (b : Bool)
    (resolved : Option (List RawEntry)) (limit : Int) :
    (fetchPlaylistEntries b resolved limit).length ≤ clampLimit limit ∧
    (resolved = none → fetchPlaylistEntries b resolved limit = [] ∧
      fetchPlaylistEntriesV2 b resolved limit = []) ∧
    (∀ arr, resolved = some arr →
      fetchPlaylistEntries b resolved limit =
        (arr.filterMap toEntry).take (clampLimit limit)) ∧
    (∀ arr, resolved = some arr → arr.length ≤ clampLimit limit →
      (fetchPlaylistEntriesV2 false resolved limit).length ≤ clampLimit limit) := by
  refine ⟨?_, ?_, ?_, ?_⟩
  · cases resolved with
    | none => simp [fetchPlaylistEntries]
    | some arr =>
        rw [fetchPlaylistEntries_eq]
        rw [List.length_take]
        exact min_le_left _ _
  · rintro rfl
    exact ⟨by simp [fetchPlaylistEntries], by simp [fetchPlaylistEntriesV2]⟩
  · rintro arr rfl
    exact fetchPlaylistEntries_eq b arr limit
  · rintro arr rfl hlen
    simp only [fetchPlaylistEntriesV2]
    exact le_trans (List.length_filterMap_le _ _) hlen

/-- C7 amended witness at a concrete playlist. -/
theorem claim_resolveBatch_amended_witness :
    fetchPlaylistEntries true (some [rawA, rawB]) 1 =
      ([rawA, rawB].filterMap toEntry).take (clampLimit 1) :=
  (claim_resolveBatch_amended true (some [rawA, rawB]) 1).2.2.1 [rawA, rawB] rfl

/-- The stored volume after setVolumePct is the clamp of the argument. -/
theorem setVolumePct_volumePct (s : EngineState) (v : Int) :
    (setVolumePct s v).volumePct =
      if v < 0 then 0 else if v > 1000 then 1000 else v := by
  cases hr : s.currentResource <;>
    (simp [setVolumePct, applyVolume, hr]; split_ifs <;> omega)

/-- C8: setVolumePct clamps the stored volume to the range 0 to 1000 (in
particular -5 stores 0 and 5000 stores 1000); when a live resource exists
the clamped value is the argument applied logarithmically to it, otherwise
the resource reference stays empty and the stored value is what the next
successful probe applies when creating the next resource. -/
theorem claim_volume_clamp (s sp : EngineState) (pct : Int)
    (item : Item) (ctx : PlayCtx) (pid : Nat)
    (hsp : sp.pending = .probing item ctx pid) :
    (setVolumePct s (-5)).volumePct = 0 ∧
    (setVolumePct s 5000).volumePct = 1000 ∧
    (0 ≤ (setVolumePct s pct).volumePct ∧
      (setVolumePct s pct).volumePct ≤ 1000) ∧
    (s.currentResource = none →
      (setVolumePct s pct).currentResource = none) ∧
    (∀ r, s.currentResource = some r →
      (setVolumePct s pct).currentResource =
        some ((setVolumePct s pct).volumePct)) ∧
    (stepLoad true sp).1.currentResource = some (max sp.volumePct 0) := by
  refine ⟨?_, ?_, ?_, ?_, ?_, ?_⟩
  · rw [setVolumePct_volumePct]; norm_num
  · rw [setVolumePct_volumePct]; norm_num
  · rw [setVolumePct_volumePct]
    constructor <;> (split_ifs <;> omega)
  · intro hr
    simp [setVolumePct, applyVolume, hr]
  · intro r hr
    rw [setVolumePct_volumePct]
    simp only [setVolumePct, applyVolume, hr]
    simp only [Option.some.injEq]
    split_ifs <;> omega
  · cases ctx <;> simp [stepLoad, hsp]

/-- C8 witness at a concrete playing state. -/
theorem claim_volume_clamp_witness :
    (setVolumePct playingState (-5)).volumePct = 0 ∧
    (setVolumePct playingState 5000).volumePct = 1000 :=
  ⟨(claim_volume_clamp playingState
      { playingState with pending := .probing (sampleItem 2) (.viaNext "tchan") 7 }
      50 (sampleItem 2) (.viaNext "tchan") 7 rfl).1,
   (claim_volume_clamp playingState
      { playingState with pending := .probing (sampleItem 2) (.viaNext "tchan") 7 }
      50 (sampleItem 2) (.viaNext "tchan") 7 rfl).2.1⟩

/-- C9 counterexample: on an empty queue, removeAt replies with the
informational empty-queue notice, not the InvalidIndex rejection the claim
requires for every queue length; the state is unchanged either way. -/
theorem claim_remove_bounds_counterexample :
    removeCmd idleState 0 = (idleState, .emptyQueue) ∧
    RemoveReply.emptyQueue ≠ RemoveReply.invalidIndex := by
  decide

/-- C9 amended: on a non-empty queue of length n, every 1-based index
outside the range 1 to n is rejected with InvalidIndex and the whole state
is unchanged; on an empty queue the handler instead replies with the
empty-queue notice, also leaving the state unchanged. -/
theorem claim_remove_bounds_amended (s : EngineState) (index : Int) :
    (s.queue ≠ [] → (index < 1 ∨ (s.queue.length : Int) < index) →
      removeCmd s index = (s, .invalidIndex)) ∧
    (s.queue = [] → removeCmd s index = (s, .emptyQueue)) := by
  constructor
  · intro hne hidx
    have hlen : ¬ s.queue.length = 0 := by
      simpa [List.length_eq_zero] using hne
    simp [removeCmd, hlen, hidx]
  · intro he
    simp [removeCmd, he]

/-- C9 amended witness: index 0 and index length+1 on a non-empty queue. -/
theorem claim_remove_bounds_amended_witness :
    removeCmd playingState 0 = (playingState, .invalidIndex) ∧
    removeCmd playingState 3 = (playingState, .invalidIndex) :=
  ⟨(claim_remove_bounds_amended playingState 0).1 (by decide) (by decide),
   (claim_remove_bounds_amended playingState 3).1 (by decide) (by decide)⟩

/-- C4: on a queue in which every track attempt fails at resolution or
pipeline start, the playNext skip-and-continue recursion terminates: each
failed attempt consumes exactly one queue item (the attempts are exactly
the original queue items, in order, and none is requeued), and the engine
settles quiescent with no current track, an empty queue, the voice
connection destroyed, and the queue-empty notification emitted. -/
theorem claim_failing_queue_terminates (tc : String) (s : EngineState)
    (hpend : s.pending = .idle) :
    (playNext (fun _ => false) tc s).1.queue = [] ∧
    (playNext (fun _ => false) tc s).1.current = none ∧
    (playNext (fun _ => false) tc s).1.vcConnected = false ∧
    (playNext (fun _ => false) tc s).1.pending = .idle ∧
    Ev.queueEmpty ∈ (playNext (fun _ => false) tc s).2 ∧
    (playNext (fun _ => false) tc s).2.filterMap attemptUid =
      s.queue.map Item.uid := by
  cases hq : s.queue with
  | nil =>
      obtain ⟨c1, c2, c3, c4, _, _, _, c8⟩ :=
        playNext_ok_nil (fun _ => false) tc s hq hpend
      refine ⟨c2, c1, c3, c4, ?_, ?_⟩
      · rw [c8]; simp
      · rw [c8]; simp [attemptUid]
  | cons x r =>
      have hp1 : (playNextBegin tc s).1.pending = .resolving x (.viaNext tc) := by
        simp [playNextBegin, startPlayback, cleanupCurrentPipeline, hq]
      have hq1 : (playNextBegin tc s).1.queue = r := by
        simp [playNextBegin, startPlayback, cleanupCurrentPipeline, hq]
      have hev1 : (playNextBegin tc s).2 = [.attempt x.uid] := by
        simp [playNextBegin, startPlayback, cleanupCurrentPipeline, hq]
      obtain ⟨e1, e2, e3, e4, e5⟩ :=
        runPending_allFail r x (playNextBegin tc s).1 tc hp1 hq1
      simp only [playNext]
      refine ⟨e1, e2, e3, e4, ?_, ?_⟩
      · rw [hev1, e5]
        simp [failTrace_queueEmpty x r]
      · rw [hev1, e5]
        simp [attemptUid, failTrace_attempts x r]

/-- C4 witness on a three-item queue. -/
theorem claim_failing_queue_terminates_witness :
    (playNext (fun _ => false) "tchan"
      { idleState with queue := [sampleItem 0, sampleItem 1, sampleItem 2] }).1.queue
        = [] ∧
    (playNext (fun _ => false) "tchan"
      { idleState with queue := [sampleItem 0, sampleItem 1, sampleItem 2] }).2.filterMap
        attemptUid = [0, 1, 2] := by
  have h := claim_failing_queue_terminates "tchan"
    { idleState with queue := [sampleItem 0, sampleItem 1, sampleItem 2] } rfl
  exact ⟨h.1, by rw [h.2.2.2.2.2]; decide⟩

/-- C1: with a current track whose restart guard is clear, a first sink
error sets the guard, notifies listeners of the reconnect, tears down the
pipeline and re-resolves and respawns the same item (exactly one new
attempt, of that item, on a fresh pipe) without touching the queue; a
second error for the same item abandons it: no further attempt of the item
is made and the engine advances to the head of the queue (or settles when
the queue is empty), with the guard reset to false as the new track begins
loading.  Together with the original play this makes exactly 2 plays of a
track that errors on every attempt. -/
theorem claim_retry_once (s : EngineState) (a : Item)
    (h1 : s.current = some a) (h2 : s.restartTried = false)
    (h3 : s.pending = .idle)
    (h4 : ∀ it ∈ s.queue, it.uid ≠ a.uid)
    (h5 : s.alive = pipeList s.currentPipe) :
    (handlePlayerError (fun _ => true) s).1.restartTried = true ∧
    Ev.reconnecting a.payload.title ∈ (handlePlayerError (fun _ => true) s).2 ∧
    (handlePlayerError (fun _ => true) s).1.current = some a ∧
    (handlePlayerError (fun _ => true) s).2.filterMap attemptUid = [a.uid] ∧
    (handlePlayerError (fun _ => true) s).1.currentPipe = some s.nextPipeId ∧
    (handlePlayerError (fun _ => true) s).1.alive = [s.nextPipeId] ∧
    (handlePlayerError (fun _ => true) s).1.pending = .idle ∧
    (handlePlayerError (fun _ => true) s).1.queue = s.queue ∧
    (handlePlayerError (fun _ => true)
        (handlePlayerError (fun _ => true) s).1).1.current = s.queue.head? ∧
    (∀ u ∈ (handlePlayerError (fun _ => true)
        (handlePlayerError (fun _ => true) s).1).2.filterMap attemptUid,
      u ≠ a.uid) ∧
    (handlePlayerError (fun _ => true)
        (handlePlayerError (fun _ => true) s).1).1.restartTried = false := by
  obtain ⟨k1, k2, k3, k4, k5, k6, k7, k8, k9⟩ :=
    playSame_ok (fun _ => true) a.payload.textChannelId a
      { s with current := some a, restartTried := true, playing := false }
      rfl rfl
  have hr1 : handlePlayerError (fun _ => true) s =
      ((playSame (fun _ => true) a.payload.textChannelId a
          { s with current := some a, restartTried := true, playing := false }).1,
        .reconnecting a.payload.title ::
          (playSame (fun _ => true) a.payload.textChannelId a
            { s with current := some a, restartTried := true, playing := false }).2) := by
    simp only [handlePlayerError]
    rw [h1, h2]
    rfl
  have hTr : (playSame (fun _ => true) a.payload.textChannelId a
      { s with current := some a, restartTried := true, playing := false }).1.restartTried = true :=
    k5.trans rfl
  have hTq : (playSame (fun _ => true) a.payload.textChannelId a
      { s with current := some a, restartTried := true, playing := false }).1.queue = s.queue :=
    k3.trans rfl
  have hr2 : handlePlayerError (fun _ => true)
      (playSame (fun _ => true) a.payload.textChannelId a
        { s with current := some a, restartTried := true, playing := false }).1 =
      playNext (fun _ => true) a.payload.textChannelId
        { (playSame (fun _ => true) a.payload.textChannelId a
            { s with current := some a, restartTried := true, playing := false }).1 with
          playing := false } := by
    simp only [handlePlayerError]
    rw [k1, hTr]
    rfl
  rw [hr1]
  dsimp only
  rw [hr2]
  generalize hT : (playSame (fun _ => true) a.payload.textChannelId a
    { s with current := some a, restartTried := true, playing := false }).1 = T
    at k1 k2 k4 k8 k9 hTr hTq ⊢
  refine ⟨hTr, by simp, k1, ?_, k4.trans rfl, k9 (by exact h5), k2, hTq,
    ?_, ?_, ?_⟩
  · rw [k8]; simp [attemptUid]
  · cases hq : s.queue with
    | nil =>
        obtain ⟨c1, _, _, _, _, _, _, _⟩ :=
          playNext_ok_nil (fun _ => true) a.payload.textChannelId
            { T with playing := false } (hTq.trans hq) k2
        rw [c1]; simp
    | cons x r =>
        obtain ⟨c1, _, _, _, _, _, _, _, _⟩ :=
          playNext_ok_cons (fun _ => true) a.payload.textChannelId
            { T with playing := false } x r (hTq.trans hq) k2 rfl rfl
        rw [c1]; simp
  · cases hq : s.queue with
    | nil =>
        obtain ⟨_, _, _, _, _, _, _, c8⟩ :=
          playNext_ok_nil (fun _ => true) a.payload.textChannelId
            { T with playing := false } (hTq.trans hq) k2
        rw [c8]
        simp [attemptUid]
    | cons x r =>
        obtain ⟨_, _, _, _, _, _, _, _, c9⟩ :=
          playNext_ok_cons (fun _ => true) a.payload.textChannelId
            { T with playing := false } x r (hTq.trans hq) k2 rfl rfl
        rw [c9]
        intro u hu
        simp [attemptUid] at hu
        rw [hu]
        exact h4 x (by rw [hq]; exact List.mem_cons_self _ _)
  · exact playNext_restartTried _ _ _

/-- A natural completion with loopMode track and no pending skip replays
the same item: the queue and loop mode are untouched. -/
theorem handlePlayerIdle_replay (oracle : Nat → Bool) (s : EngineState)
    (b : Item) (h1 : s.current = some b) (h2 : s.loopMode = .track)
    (h3 : s.skipRequested = false)
    (h0 : oracle 0 = true) (ho1 : oracle 1 = true) :
    (handlePlayerIdle oracle s).1.current = some b ∧
    (handlePlayerIdle oracle s).1.queue = s.queue ∧
    (handlePlayerIdle oracle s).1.skipRequested = false ∧
    (handlePlayerIdle oracle s).1.loopMode = s.loopMode ∧
    (handlePlayerIdle oracle s).1.pending = .idle := by
  simp only [handlePlayerIdle, cleanupCurrentPipeline]
  rw [h1]
  dsimp only
  rw [if_pos ⟨h2, h3⟩]
  refine ⟨(playSame_ok oracle _ b _ h0 ho1).1,
    ((playSame_ok oracle _ b _ h0 ho1).2.2.1).trans rfl,
    ((playSame_ok oracle _ b _ h0 ho1).2.2.2.2.2.2.1).trans rfl,
    ((playSame_ok oracle _ b _ h0 ho1).2.2.2.2.2.1).trans rfl,
    (playSame_ok oracle _ b _ h0 ho1).2.1⟩

/-- A completion that neither replays (loop off, or a pending user skip)
nor requeues (loop not queue) advances to the head of the queue, resetting
the skip latch and leaving the loop mode unchanged. -/
theorem handlePlayerIdle_advance (oracle : Nat → Bool) (s : EngineState)
    (fin : Item) (h1 : s.current = some fin)
    (hcond : ¬ (s.loopMode = .track ∧ s.skipRequested = false))
    (hnq : ¬ s.loopMode = .queue) (h3 : s.pending = .idle)
    (h0 : oracle 0 = true) (ho1 : oracle 1 = true) :
    (handlePlayerIdle oracle s).1.current = s.queue.head? ∧
    (handlePlayerIdle oracle s).1.queue = s.queue.tail ∧
    (handlePlayerIdle oracle s).1.skipRequested = false ∧
    (handlePlayerIdle oracle s).1.loopMode = s.loopMode ∧
    (handlePlayerIdle oracle s).1.pending = .idle := by
  simp only [handlePlayerIdle, cleanupCurrentPipeline]
  rw [h1]
  dsimp only
  rw [if_neg hcond, if_neg hnq]
  cases hq : s.queue with
  | nil =>
      refine ⟨?_, ?_, ?_, ?_, ?_⟩
      · exact ((playNext_ok_nil oracle _ _ (by simp [hq]) (by exact h3)).1).trans
          (by simp)
      · exact ((playNext_ok_nil oracle _ _ (by simp [hq]) (by exact h3)).2.1).trans
          (by simp)
      · exact ((playNext_ok_nil oracle _ _ (by simp [hq])
          (by exact h3)).2.2.2.2.2.1).trans rfl
      · exact ((playNext_ok_nil oracle _ _ (by simp [hq])
          (by exact h3)).2.2.2.2.2.2.1).trans rfl
      · exact (playNext_ok_nil oracle _ _ (by simp [hq]) (by exact h3)).2.2.2.1
  | cons x r =>
      refine ⟨?_, ?_, ?_, ?_, ?_⟩
      · exact ((playNext_ok_cons oracle _ _ x r (by simp [hq]) (by exact h3)
          h0 ho1).1).trans (by simp)
      · exact ((playNext_ok_cons oracle _ _ x r (by simp [hq]) (by exact h3)
          h0 ho1).2.1).trans (by simp)
      · exact ((playNext_ok_cons oracle _ _ x r (by simp [hq]) (by exact h3)
          h0 ho1).2.2.2.2.2.1).trans rfl
      · exact ((playNext_ok_cons oracle _ _ x r (by simp [hq]) (by exact h3)
          h0 ho1).2.2.2.2.1).trans rfl
      · exact (playNext_ok_cons oracle _ _ x r (by simp [hq]) (by exact h3)
          h0 ho1).2.2.2.1

/-- A natural completion with loopMode queue requeues a fresh copy of the
finished item at the back before advancing to the (now never empty)
queue head. -/
theorem handlePlayerIdle_loopQueue (oracle : Nat → Bool) (s : EngineState)
    (fin : Item) (h1 : s.current = some fin) (hl : s.loopMode = .queue)
    (hskip : s.skipRequested = false) (h3 : s.pending = .idle)
    (h0 : oracle 0 = true) (ho1 : oracle 1 = true) :
    (handlePlayerIdle oracle s).1.current =
      (s.queue ++ [(⟨fin.payload, s.nextUid⟩ : Item)]).head? ∧
    (handlePlayerIdle oracle s).1.queue =
      (s.queue ++ [(⟨fin.payload, s.nextUid⟩ : Item)]).tail ∧
    (handlePlayerIdle oracle s).1.skipRequested = false ∧
    (handlePlayerIdle oracle s).1.loopMode = s.loopMode ∧
    (handlePlayerIdle oracle s).1.pending = .idle := by
  simp only [handlePlayerIdle, cleanupCurrentPipeline]
  rw [h1]
  dsimp only
  rw [if_neg (by simp [hl]), if_pos (by exact hl)]
  cases hq : s.queue with
  | nil =>
      refine ⟨?_, ?_, ?_, ?_, ?_⟩
      · exact ((playNext_ok_cons oracle _ _ (⟨fin.payload, s.nextUid⟩ : Item) []
          (by simp [hq]) (by exact h3) h0 ho1).1).trans (by simp)
      · exact ((playNext_ok_cons oracle _ _ (⟨fin.payload, s.nextUid⟩ : Item) []
          (by simp [hq]) (by exact h3) h0 ho1).2.1).trans (by simp)
      · exact ((playNext_ok_cons oracle _ _ (⟨fin.payload, s.nextUid⟩ : Item) []
          (by simp [hq]) (by exact h3) h0 ho1).2.2.2.2.2.1).trans rfl
      · exact ((playNext_ok_cons oracle _ _ (⟨fin.payload, s.nextUid⟩ : Item) []
          (by simp [hq]) (by exact h3) h0 ho1).2.2.2.2.1).trans rfl
      · exact (playNext_ok_cons oracle _ _ (⟨fin.payload, s.nextUid⟩ : Item) []
          (by simp [hq]) (by exact h3) h0 ho1).2.2.2.1
  | cons y ys =>
      refine ⟨?_, ?_, ?_, ?_, ?_⟩
      · exact ((playNext_ok_cons oracle _ _ y (ys ++ [(⟨fin.payload, s.nextUid⟩ : Item)])
          (by simp [hq]) (by exact h3) h0 ho1).1).trans (by simp)
      · exact ((playNext_ok_cons oracle _ _ y (ys ++ [(⟨fin.payload, s.nextUid⟩ : Item)])
          (by simp [hq]) (by exact h3) h0 ho1).2.1).trans (by simp)
      · exact ((playNext_ok_cons oracle _ _ y (ys ++ [(⟨fin.payload, s.nextUid⟩ : Item)])
          (by simp [hq]) (by exact h3) h0 ho1).2.2.2.2.2.1).trans rfl
      · exact ((playNext_ok_cons oracle _ _ y (ys ++ [(⟨fin.payload, s.nextUid⟩ : Item)])
          (by simp [hq]) (by exact h3) h0 ho1).2.2.2.2.1).trans rfl
      · exact (playNext_ok_cons oracle _ _ y (ys ++ [(⟨fin.payload, s.nextUid⟩ : Item)])
          (by simp [hq]) (by exact h3) h0 ho1).2.2.2.1

/-- A completion event with no current track returns early: only the
pipeline and resource are cleaned; the skip latch, the queue and the rest
of the state are untouched, and no notification is emitted. -/
theorem handlePlayerIdle_noCurrent (oracle : Nat → Bool) (s : EngineState)
    (hc : s.current = none) :
    (handlePlayerIdle oracle s).1.skipRequested = s.skipRequested ∧
    (handlePlayerIdle oracle s).1.queue = s.queue ∧
    (handlePlayerIdle oracle s).1.current = none ∧
    (handlePlayerIdle oracle s).1.loopMode = s.loopMode ∧
    (handlePlayerIdle oracle s).2 = [] := by
  simp only [handlePlayerIdle, cleanupCurrentPipeline]
  rw [hc]
  exact ⟨rfl, rfl, rfl, rfl, rfl⟩

/-- C1 witness on a playing state with a queued successor. -/
theorem claim_retry_once_witness :
    (handlePlayerError (fun _ => true) playingState).1.restartTried = true ∧
    (handlePlayerError (fun _ => true) playingState).1.current =
      some (sampleItem 2) ∧
    (handlePlayerError (fun _ => true)
        (handlePlayerError (fun _ => true) playingState).1).1.current =
      playingState.queue.head? := by
  have h := claim_retry_once playingState (sampleItem 2) rfl rfl rfl
    (by decide) rfl
  exact ⟨h.1, h.2.2.1, h.2.2.2.2.2.2.2.2.1⟩

/-- C2: with loopMode track and a current track a, a skip followed by the
completion event it forces advances the engine to the head of the queue
(never replaying a) and resets skipRequested to false; the flag governed
only that completion: a subsequent natural completion replays the then
current track as loop-track prescribes. -/
theorem claim_skip_suppresses_track_loop (s : EngineState) (a : Item)
    (h1 : s.current = some a) (h2 : s.loopMode = .track)
    (h3 : s.pending = .idle)
    (h4 : ∀ it ∈ s.queue, it.uid ≠ a.uid) :
    (handlePlayerIdle (fun _ => true) (skipCmd s)).1.current = s.queue.head? ∧
    (handlePlayerIdle (fun _ => true) (skipCmd s)).1.current ≠ some a ∧
    (handlePlayerIdle (fun _ => true) (skipCmd s)).1.queue = s.queue.tail ∧
    (handlePlayerIdle (fun _ => true) (skipCmd s)).1.skipRequested = false ∧
    (handlePlayerIdle (fun _ => true) (skipCmd s)).1.loopMode = .track ∧
    (∀ b, (handlePlayerIdle (fun _ => true) (skipCmd s)).1.current = some b →
      (handlePlayerIdle (fun _ => true)
        (handlePlayerIdle (fun _ => true) (skipCmd s)).1).1.current = some b) := by
  obtain ⟨d1, d2, d3, d4, d5⟩ :=
    handlePlayerIdle_advance (fun _ => true) (skipCmd s) a (by exact h1)
      (by simp [skipCmd, cleanupCurrentPipeline])
      (by simp [skipCmd, cleanupCurrentPipeline, h2])
      (by exact h3) rfl rfl
  have hd1 : (handlePlayerIdle (fun _ => true) (skipCmd s)).1.current =
      s.queue.head? := d1.trans rfl
  have hd4 : (handlePlayerIdle (fun _ => true) (skipCmd s)).1.loopMode =
      .track := d4.trans (by exact h2)
  refine ⟨hd1, ?_, d2.trans rfl, d3, hd4, ?_⟩
  · rw [hd1]
    cases hq : s.queue with
    | nil => simp
    | cons x r =>
        simp only [List.head?_cons, ne_eq, Option.some.injEq]
        intro heq
        exact h4 x (by rw [hq]; exact List.mem_cons_self _ _) (by rw [heq])
  · intro b hb
    exact (handlePlayerIdle_replay (fun _ => true) _ b hb hd4 d3 rfl rfl).1

/-- C2 witness on a track-looping state with a queued successor. -/
theorem claim_skip_suppresses_track_loop_witness :
    (handlePlayerIdle (fun _ => true) (skipCmd trackState)).1.current =
      trackState.queue.head? ∧
    (handlePlayerIdle (fun _ => true) (skipCmd trackState)).1.skipRequested =
      false := by
  have h := claim_skip_suppresses_track_loop trackState (sampleItem 2)
    rfl rfl rfl (by decide)
  exact ⟨h.1, h.2.2.2.1⟩

/-- C3: with loopMode queue, current a and queue b, a natural completion
re-pushes the finished item verbatim (same payload, fresh object) to the
back before advancing, so one full natural cycle returns the queue to the
original payloads rotated, never duplicated, and playback continues. -/
theorem claim_loop_queue_round_trip (s : EngineState) (a b : Item)
    (h1 : s.current = some a) (hq : s.queue = [b])
    (hl : s.loopMode = .queue) (hskip : s.skipRequested = false)
    (h3 : s.pending = .idle) :
    (handlePlayerIdle (fun _ => true) s).1.current = some b ∧
    (handlePlayerIdle (fun _ => true) s).1.queue.map Item.payload =
      [a.payload] ∧
    (handlePlayerIdle (fun _ => true) s).1.queue.length = 1 ∧
    (handlePlayerIdle (fun _ => true)
      (handlePlayerIdle (fun _ => true) s).1).1.current.map Item.payload =
        some a.payload ∧
    (handlePlayerIdle (fun _ => true)
      (handlePlayerIdle (fun _ => true) s).1).1.queue.map Item.payload =
        [b.payload] ∧
    (handlePlayerIdle (fun _ => true)
      (handlePlayerIdle (fun _ => true) s).1).1.queue.length = 1 := by
  obtain ⟨d1, d2, d3, d4, d5⟩ :=
    handlePlayerIdle_loopQueue (fun _ => true) s a h1 hl hskip h3 rfl rfl
  rw [hq] at d1 d2
  simp only [List.cons_append, List.nil_append, List.head?_cons,
    List.tail_cons] at d1 d2
  obtain ⟨e1, e2, _, _, _⟩ :=
    handlePlayerIdle_loopQueue (fun _ => true)
      (handlePlayerIdle (fun _ => true) s).1 b d1 (d4.trans hl) d3 d5 rfl rfl
  rw [d2] at e1 e2
  simp only [List.cons_append, List.nil_append, List.head?_cons,
    List.tail_cons] at e1 e2
  refine ⟨d1, ?_, ?_, ?_, ?_, ?_⟩
  · rw [d2]; simp
  · rw [d2]; simp
  · rw [e1]; simp
  · rw [e2]; simp
  · rw [e2]; simp

/-- C3 witness on a queue-looping state. -/
theorem claim_loop_queue_round_trip_witness :
    (handlePlayerIdle (fun _ => true) queueLoopState).1.current =
      some (sampleItem 0) ∧
    (handlePlayerIdle (fun _ => true) queueLoopState).1.queue.map
      Item.payload = [(sampleItem 2).payload] := by
  have h := claim_loop_queue_round_trip queueLoopState (sampleItem 2)
    (sampleItem 0) rfl rfl rfl rfl rfl
  exact ⟨h.1, h.2.1⟩

/-- An error event with no current track returns early and changes no
engine state beyond the player status. -/
theorem handlePlayerError_noCurrent (oracle : Nat → Bool) (s : EngineState)
    (hc : s.current = none) :
    (handlePlayerError oracle s).1.queue = s.queue ∧
    (handlePlayerError oracle s).1.current = none ∧
    (handlePlayerError oracle s).2 = [] := by
  simp only [handlePlayerError]
  rw [hc]
  exact ⟨rfl, rfl, rfl⟩

/-- C10: a skip issued with no current track latches skipRequested; a
completion event arriving while current is null returns early without
reading or resetting the flag, so the latch persists until the next
completion that does have a current track, which is then handled as a
user-initiated skip (advancing instead of replaying under loop-track) and
consumes the flag; stop resets the latch. -/
theorem claim_skip_latch (oracle : Nat → Bool) (s s2 : EngineState) (b : Item)
    (hs : s.current = none)
    (h2c : s2.current = some b) (h2l : s2.loopMode = .track)
    (h2s : s2.skipRequested = true) (h2p : s2.pending = .idle) :
    (skipCmd s).skipRequested = true ∧
    (skipCmd s).current = none ∧
    (skipCmd s).queue = s.queue ∧
    (handlePlayerIdle oracle s).1.skipRequested = s.skipRequested ∧
    (handlePlayerIdle oracle s).1.queue = s.queue ∧
    (handlePlayerIdle oracle s).1.current = none ∧
    (handlePlayerIdle oracle s).2 = [] ∧
    (handlePlayerIdle (fun _ => true) s2).1.current = s2.queue.head? ∧
    (handlePlayerIdle (fun _ => true) s2).1.skipRequested = false ∧
    (stopCmd s).skipRequested = false := by
  obtain ⟨n1, n2, n3, _, n5⟩ := handlePlayerIdle_noCurrent oracle s hs
  obtain ⟨a1, _, a3, _, _⟩ :=
    handlePlayerIdle_advance (fun _ => true) s2 b h2c (by simp [h2s])
      (by simp [h2l]) h2p rfl rfl
  exact ⟨rfl, hs, rfl, n1, n2, n3, n5, a1, a3, rfl⟩

/-- C10 witness: a skip on an idle engine and the latched completion. -/
theorem claim_skip_latch_witness :
    (skipCmd idleState).skipRequested = true ∧
    (handlePlayerIdle (fun _ => true)
      { trackState with skipRequested := true }).1.skipRequested = false := by
  have h := claim_skip_latch (fun _ => true) idleState
    { trackState with skipRequested := true } (sampleItem 2)
    rfl rfl rfl rfl rfl
  exact ⟨h.1, h.2.2.2.2.2.2.2.2.1⟩

/-- C5: every guild state satisfying the invariant has: a pipeline only
with a current track, at most one live transcoder subprocess, and a queue
that never contains the current item; and every operation of the engine
(enqueue via the play and playlist handlers, playNext, replay of the
current item, skip, stop, the completion and error handlers, remove and
volume) preserves the invariant; the freshly created guild state satisfies
it, so every state reachable through these operations does. -/
theorem claim_state_invariants (oracle : Nat → Bool) (s : EngineState)
    (h : Inv s)
    (title source requestedBy voiceChannelId textChannelId : String)
    (entries : List (String × String)) (index pct : Int) :
    Inv idleState ∧
    ((s.currentPipe.isSome → s.current.isSome) ∧
      s.alive.length ≤ 1 ∧
      (∀ c ∈ s.current.toList, ∀ it ∈ s.queue, it.uid ≠ c.uid)) ∧
    Inv (playCmd oracle title source requestedBy voiceChannelId
      textChannelId s).1 ∧
    Inv (playlistCmd oracle entries requestedBy voiceChannelId
      textChannelId s).1 ∧
    Inv (playNext oracle textChannelId s).1 ∧
    (∀ c, s.current = some c →
      Inv (playSame oracle c.payload.textChannelId c s).1) ∧
    Inv (skipCmd s) ∧
    Inv (stopCmd s) ∧
    Inv (handlePlayerIdle oracle s).1 ∧
    Inv (handlePlayerError oracle s).1 ∧
    Inv (removeCmd s index).1 ∧
    Inv (setVolumePct s pct) := by
  refine ⟨by decide, ⟨?_, ?_, h.1.2.1.1⟩,
    playCmd_inv oracle title source requestedBy voiceChannelId textChannelId s h,
    playlistCmd_inv oracle entries requestedBy voiceChannelId textChannelId s h,
    playNext_inv oracle textChannelId s h,
    fun c hc => playSame_inv oracle c.payload.textChannelId c s h hc,
    skipCmd_inv s h,
    stopCmd_inv s h,
    handlePlayerIdle_inv oracle s h,
    handlePlayerError_inv oracle s h,
    removeCmd_inv s index h,
    setVolumePct_inv s pct h⟩
  · have hpo := h.1.2.2
    rw [h.2] at hpo
    exact hpo
  · rw [h.1.1]
    cases s.currentPipe <;> simp [pipeList]

/-- C5 witness at a concrete playing state. -/
theorem claim_state_invariants_witness :
    Inv (skipCmd playingState) ∧ Inv (stopCmd playingState) :=
  ⟨(claim_state_invariants (fun _ => true) playingState (by decide)
      "t" "s" "u" "v" "c" [] 1 50).2.2.2.2.2.2.1,
   (claim_state_invariants (fun _ => true) playingState (by decide)
      "t" "s" "u" "v" "c" [] 1 50).2.2.2.2.2.2.2.1⟩

/-- A killed (or failing) probe inside playNext with an empty queue settles
idle, consuming no queue item and making no further attempt. -/
theorem runPending_probing_fail_nil (oracle : Nat → Bool) (s : EngineState)
    (item : Item) (tc : String) (pid : Nat)
    (hp : s.pending = .probing item (.viaNext tc) pid)
    (hq : s.queue = []) (h0 : oracle 0 = false) :
    (runPending oracle s).1.current = none ∧
    (runPending oracle s).1.queue = [] ∧
    (runPending oracle s).1.pending = .idle ∧
    (runPending oracle s).2.filterMap attemptUid = [] := by
  have hne : ¬ s.pending = .idle := by simp [hp]
  have hfe : loadMeasure s = 0 + 1 := by
    simp [loadMeasure, hp, pendingRank, hq]
  rw [runPending, hfe, runPendingFuel_step _ _ _ hne]
  simp [stepLoad, hp, h0, loadFail, playNextBegin, startPlayback,
    cleanupCurrentPipeline, hq, runPendingFuel, attemptUid]

/-- A killed (or failing) probe inside playNext with a non-empty queue
consumes exactly the head: one advance, one new attempt, for the head. -/
theorem runPending_probing_fail_cons (oracle : Nat → Bool) (s : EngineState)
    (item : Item) (tc : String) (pid : Nat) (x : Item) (r : List Item)
    (hp : s.pending = .probing item (.viaNext tc) pid)
    (hq : s.queue = x :: r)
    (h0 : oracle 0 = false) (ho1 : oracle 1 = true) (ho2 : oracle 2 = true) :
    (runPending oracle s).1.current = some x ∧
    (runPending oracle s).1.queue = r ∧
    (runPending oracle s).1.pending = .idle ∧
    (runPending oracle s).2.filterMap attemptUid = [x.uid] := by
  have hne : ¬ s.pending = .idle := by simp [hp]
  have hfe : loadMeasure s = (2 * r.length + 2) + 1 := by
    have : loadMeasure s = 2 * (r.length + 1) + 1 := by
      simp [loadMeasure, hp, pendingRank, hq]
    omega
  rw [runPending, hfe, runPendingFuel_step _ _ _ hne]
  dsimp only
  have ht : (stepLoad (oracle 0) s).1.pending = .resolving x (.viaNext tc) ∧
      (stepLoad (oracle 0) s).1.queue = r ∧
      (stepLoad (oracle 0) s).1.current = some x ∧
      (stepLoad (oracle 0) s).2 =
        [.skippedBroken item.payload.title, .attempt x.uid] := by
    refine ⟨?_, ?_, ?_, ?_⟩ <;>
      simp [stepLoad, hp, h0, loadFail, playNextBegin, startPlayback,
        cleanupCurrentPipeline, hq]
  have hmt : loadMeasure (stepLoad (oracle 0) s).1 = 2 * r.length + 2 := by
    rw [loadMeasure, ht.2.1, ht.1]
    simp [pendingRank]
  rw [runPendingFuel_over (2 * r.length + 2) (fun n => oracle (n + 1))
    (stepLoad (oracle 0) s).1 (by omega)]
  rw [runPending_resolving_ok (fun n => oracle (n + 1)) _ x (.viaNext tc)
    ht.1 (by exact ho1) (by exact ho2)]
  refine ⟨ht.2.2.1, ht.2.1, rfl, ?_⟩
  rw [ht.2.2.2]
  simp [attemptUid, loadOkEv]

/-- C6: skip and stop interrupt an in-flight Loading transition without a
double advance.  A skip while a pipeline is mid-spawn kills that pipeline
but consumes no queue item itself and leaves the in-flight load in place;
the forced failure of that load then advances exactly one queue item (or
settles on an empty queue).  A stop clears the queue, so the interrupted
load cannot advance anything and makes no further attempt.  Completion
events that find no current track (the instance they would act on is no
longer current) return early without touching the queue. -/
theorem claim_no_double_advance (oracle : Nat → Bool) (s : EngineState)
    (item : Item) (tc : String) (pid : Nat)
    (hp : s.pending = .probing item (.viaNext tc) pid)
    (halive : s.alive = [pid]) (hpipe : s.currentPipe = some pid)
    (h0 : oracle 0 = false) (ho1 : oracle 1 = true) (ho2 : oracle 2 = true) :
    (skipCmd s).queue = s.queue ∧
    (skipCmd s).pending = s.pending ∧
    (skipCmd s).currentPipe = none ∧
    (skipCmd s).alive = [] ∧
    (s.queue = [] →
      (runPending oracle (skipCmd s)).1.current = none ∧
      (runPending oracle (skipCmd s)).1.queue = [] ∧
      (runPending oracle (skipCmd s)).2.filterMap attemptUid = []) ∧
    (∀ x r, s.queue = x :: r →
      (runPending oracle (skipCmd s)).1.current = some x ∧
      (runPending oracle (skipCmd s)).1.queue = r ∧
      (runPending oracle (skipCmd s)).2.filterMap attemptUid = [x.uid]) ∧
    (stopCmd s).queue = [] ∧
    (runPending oracle (stopCmd s)).1.queue = [] ∧
    (runPending oracle (stopCmd s)).2.filterMap attemptUid = [] ∧
    (∀ s2 : EngineState, s2.current = none →
      (handlePlayerIdle oracle s2).1.queue = s2.queue ∧
      (handlePlayerError oracle s2).1.queue = s2.queue) := by
  refine ⟨rfl, rfl, rfl, ?_, ?_, ?_, rfl, ?_, ?_, ?_⟩
  · show (match s.currentPipe with
      | none => s.alive
      | some p => s.alive.erase p) = []
    rw [hpipe, halive]
    simp
  · intro hq
    obtain ⟨f1, f2, _, f4⟩ := runPending_probing_fail_nil oracle (skipCmd s)
      item tc pid (by exact hp) (by exact hq) h0
    exact ⟨f1, f2, f4⟩
  · intro x r hq
    obtain ⟨f1, f2, _, f4⟩ := runPending_probing_fail_cons oracle (skipCmd s)
      item tc pid x r (by exact hp) (by exact hq) h0 ho1 ho2
    exact ⟨f1, f2, f4⟩
  · exact (runPending_probing_fail_nil oracle (stopCmd s) item tc pid
      (by exact hp) rfl h0).2.1
  · exact (runPending_probing_fail_nil oracle (stopCmd s) item tc pid
      (by exact hp) rfl h0).2.2.2
  · intro s2 hc2
    exact ⟨(handlePlayerIdle_noCurrent oracle s2 hc2).2.1,
      (handlePlayerError_noCurrent oracle s2 hc2).1⟩

/-- C6 witness: a skip mid-spawn followed by the forced probe failure
advances exactly to the first queued item. -/
theorem claim_no_double_advance_witness :
    (runPending (fun n => decide (0 < n)) (skipCmd loadingState)).1.current =
      some (sampleItem 0) ∧
    (runPending (fun n => decide (0 < n)) (stopCmd loadingState)).1.queue = [] := by
  have h := claim_no_double_advance (fun n => decide (0 < n)) loadingState
    (sampleItem 2) "tchan" 7 rfl rfl rfl rfl rfl rfl
  exact ⟨(h.2.2.2.2.2.1 (sampleItem 0) [sampleItem 1] rfl).1,
    h.2.2.2.2.2.2.2.1⟩

end MusicBot
